import Mathlib

/-!
# Verification of `packages/functions/src/simplify.ts` (glTF-Transform)

This file shallowly embeds the mesh-simplification transform of the
repository.  The single source file under verification is
`src/packages/functions/src/simplify.ts`; its collaborators (the document
model of `@gltf-transform/core`, the helpers of `utils.ts`, `dequantize.ts`,
`unweld.ts`, and the sub-pipelines `weld`/`prune`/`dedup`) are not part of
the provided sources and are modelled from the specification where needed.
The external meshoptimizer decimator is treated as an abstract capability
(a `Simplifier` structure of functions) with its documented contract stated
as a separate `Prop`-valued structure; an executable reference instance is
provided for concrete evaluation.

Numbers: attribute payloads are modelled as `Rat` (the source operates on
JS doubles / typed arrays; all operations used here — copying, gathering,
division by a constant in dequantization — are exact), index payloads as
`Nat` with explicit `% 2 ^ 16` / `% 2 ^ 32` where a JS typed-array
conversion can truncate.
-/

set_option maxRecDepth 8000

namespace GltfSimplify

/-- glTF accessor component types (the storage class of a typed array). -/
inductive ComponentType
  | byte
  | ubyte
  | short
  | ushort
  | uint
  | float
deriving DecidableEq, Repr

/-- Byte size of one component (`Accessor.getComponentSize` divided by the
element size in the real model). -/
def componentSize : ComponentType → Nat
  | .byte => 1
  | .ubyte => 1
  | .short => 2
  | .ushort => 2
  | .uint => 4
  | .float => 4

/-- Maximum representable magnitude used when decoding normalized integers. -/
def maxComponent : ComponentType → Rat
  | .byte => 127
  | .ubyte => 255
  | .short => 32767
  | .ushort => 65535
  | .uint => 4294967295
  | .float => 1

/-- A JS typed array: a storage class together with its numeric contents.
`storage = .float` models `Float32Array`, `storage = .uint` models
`Uint32Array`, and so on. -/
structure TypedArr where
  storage : ComponentType
  data : List Rat
deriving DecidableEq, Repr

/-- Modelled from the spec: an Accessor is a typed numeric buffer with a
component type, a normalized flag and an element count.  As in the real
document model the component type is carried by the backing array and the
count is derived from the array length and the element size. -/
structure Accessor where
  normalized : Bool
  elementSize : Nat
  array : TypedArr
deriving DecidableEq, Repr

def Accessor.getComponentType (a : Accessor) : ComponentType := a.array.storage

def Accessor.getComponentSize (a : Accessor) : Nat := componentSize a.array.storage

def Accessor.getCount (a : Accessor) : Nat := a.array.data.length / a.elementSize

/-- Draw-mode tag of a primitive; every mode other than `TRIANGLES` and
`POINTS` is collapsed into `OTHER` (the source treats them all alike). -/
inductive Mode
  | TRIANGLES
  | POINTS
  | OTHER
deriving DecidableEq, Repr

/-- Modelled from the spec: a Primitive is a draw mode, an optional index
accessor, named attribute accessors, and morph-target attribute mappings
that may alias the same accessors.  Accessors are referenced by numeric id
into the document's accessor store. -/
structure Primitive where
  mode : Mode
  indices : Option Nat
  attributes : List (String × Nat)
  targets : List (List (String × Nat))
deriving DecidableEq, Repr

def Primitive.getAttribute (p : Primitive) (name : String) : Option Nat :=
  (p.attributes.find? (fun e => e.1 == name)).map (·.2)

/-- Modelled from the spec: a Mesh is an ordered set of primitives. -/
structure Mesh where
  name : String
  primitives : List Primitive
deriving DecidableEq, Repr

/-- Modelled from the spec: the document owns an accessor store (presence in
the store = the accessor is live / not disposed), the meshes, and a counter
supplying fresh accessor ids. -/
structure Document where
  accessors : List (Nat × Accessor)
  meshes : List Mesh
  nextId : Nat
deriving DecidableEq, Repr

def lookupAccessor (doc : Document) (aid : Nat) : Option Accessor :=
  (doc.accessors.find? (fun e => e.1 == aid)).map (·.2)

/-- Creating a new accessor: it is stored under the fresh id `doc.nextId`. -/
def addAccessor (doc : Document) (acc : Accessor) : Document :=
  { doc with accessors := doc.accessors ++ [(doc.nextId, acc)], nextId := doc.nextId + 1 }

/-- Disposing an accessor removes it from the store. -/
def removeAccessor (doc : Document) (aid : Nat) : Document :=
  { doc with accessors := doc.accessors.filter (fun e => e.1 != aid) }

/-- Replace the element at one position of a list, leaving others alone. -/
def listModify (f : α → α) : Nat → List α → List α
  | _, [] => []
  | 0, a :: as => f a :: as
  | n + 1, a :: as => a :: listModify f n as

def getMesh (doc : Document) (mi : Nat) : Option Mesh := doc.meshes[mi]?

def getPrim (doc : Document) (mi pi : Nat) : Option Primitive :=
  (getMesh doc mi).bind (fun m => m.primitives[pi]?)

def updateMesh (doc : Document) (mi : Nat) (f : Mesh → Mesh) : Document :=
  { doc with meshes := listModify f mi doc.meshes }

def updatePrim (doc : Document) (mi pi : Nat) (f : Primitive → Primitive) : Document :=
  updateMesh doc mi (fun m => { m with primitives := listModify f pi m.primitives })

/-- Removing (disposing) a primitive detaches it from its mesh. -/
def removePrim (doc : Document) (mi pi : Nat) : Document :=
  updateMesh doc mi (fun m => { m with primitives := m.primitives.eraseIdx pi })

/-- Removing (disposing) a mesh. -/
def removeMesh (doc : Document) (mi : Nat) : Document :=
  { doc with meshes := doc.meshes.eraseIdx mi }

/-- Does this primitive itself (indices slot or a named attribute slot)
reference accessor `aid`?  Morph targets are separate parent properties and
are counted separately. -/
def primRef (p : Primitive) (aid : Nat) : Bool :=
  p.indices == some aid || p.attributes.any (fun e => e.2 == aid)

/-- Does the primitive reference `aid` anywhere (indices, attributes, or a
morph target)? -/
def primReferences (p : Primitive) (aid : Nat) : Bool :=
  primRef p aid || p.targets.any (fun t => t.any (fun e => e.2 == aid))

/-- Number of parent properties of one primitive (the primitive itself plus
each of its morph targets) that reference `aid`. -/
def primParentCount (p : Primitive) (aid : Nat) : Nat :=
  (if primRef p aid then 1 else 0) + p.targets.countP (fun t => t.any (fun e => e.2 == aid))

/-- Modelled from the spec: `listParents().length` of an accessor.  The
reference list holds every primitive / morph target currently pointing at
the accessor; in the underlying property graph the document root also keeps
a reference to every live accessor, hence the leading `1` (the source's
`listParents().length === 1` test means "only the root still references
this accessor"). -/
def listParentsCount (doc : Document) (aid : Nat) : Nat :=
  1 + (doc.meshes.map (fun m => (m.primitives.map (fun p => primParentCount p aid)).sum)).sum

/-! ## The external decimator capability -/

/-- Errors propagating out of the embedded functions: `typeError` models the
JS `TypeError` raised when a non-null-asserted value is in fact
`undefined`; `thrown` models an exception raised by the external
decimator. -/
inductive JsError
  | typeError
  | thrown (msg : String)
deriving DecidableEq, Repr

/-- The external meshoptimizer capability, per the spec's interface section:
`simplify` (triangle decimation, returning new indices and an achieved
error), `compactMesh` (returning the remap table, the unique vertex count,
and the index buffer rewritten in terms of the compacted numbering — the
real capability remaps the given index buffer in place), the optional
`simplifyPoints` entry point (which observes the process-wide
experimental-features toggle, passed here as its first argument, and may
throw), and the experimental-features toggle itself, modelled as mutable
state threaded through the embedded functions. -/
structure Simplifier where
  simplify : List Nat → List Rat → Nat → Nat → Rat → List String → List Nat × Rat
  compactMesh : List Nat → List (Option Nat) × Nat × List Nat
  simplifyPoints : Option (Bool → List Rat → Nat → Nat → Option (List Rat) → Option Nat → Except String (List Nat))
  useExperimentalFeatures : Bool

/-- The documented contract of the external decimator (spec: the triangle
entry point returns a new index buffer drawn from the same vertices, of
whole triangles, never longer than its input; compaction returns a dense
remap whose rewritten indices are all below the unique count, which never
exceeds any bound on the referenced vertex indices). -/
structure SimplifierContract (s : Simplifier) : Prop where
  simplify_mem : ∀ idx pos st tc eb fl, ∀ v ∈ (s.simplify idx pos st tc eb fl).1, v ∈ idx
  simplify_dvd : ∀ idx pos st tc eb fl, 3 ∣ (s.simplify idx pos st tc eb fl).1.length
  simplify_le : ∀ idx pos st tc eb fl, (s.simplify idx pos st tc eb fl).1.length ≤ idx.length
  compact_len : ∀ idx, (s.compactMesh idx).2.2.length = idx.length
  compact_lt : ∀ idx, ∀ v ∈ (s.compactMesh idx).2.2, v < (s.compactMesh idx).2.1
  compact_le : ∀ idx n, (∀ v ∈ idx, v < n) → (s.compactMesh idx).2.1 ≤ n

/-! ## Format normalization (`dequantize.ts` and the typed-array casts) -/

/-- Modelled from the spec: dequantization decodes integer-encoded values
into true floating values — a normalized integer is divided by the
component type's maximum value, a non-normalized one is used as-is. -/
def dequantizeAttributeArray (data : List Rat) (componentType : ComponentType) (normalized : Bool) : List Rat :=
  if normalized then data.map (fun v => v / maxComponent componentType) else data

/-- Lines 146-148 / 207-212 of the source: an array already stored as
`Float32Array` is used as-is, any other array is dequantized with the given
component type and normalized flag (which the source chooses at each call
site). -/
def normalizeArr (arr : TypedArr) (componentType : ComponentType) (normalized : Bool) : List Rat :=
  if arr.storage = .float then arr.data else dequantizeAttributeArray arr.data componentType normalized

/-- Reading one entry of a typed array as a `Uint32Array` element
(`new Uint32Array(indicesArray)` truncates mod `2 ^ 32`; on a well-formed
index array this is the identity). -/
def ratToUint32 (q : Rat) : Nat := (q.floor % (2 ^ 32 : Int)).toNat

/-- Lines 149-151 of the source: the index array as handed to the
decimator, i.e. widened to `Uint32Array`. -/
def natsOfArr (a : TypedArr) : List Nat := a.data.map ratToUint32

/-! ## Remap & compaction engine -/

def getElement (data : List Rat) (esz i : Nat) : List Rat :=
  let e := (data.drop (i * esz)).take esz
  e ++ List.replicate (esz - e.length) 0

def setElement (data : List Rat) (esz j : Nat) (elem : List Rat) : List Rat :=
  data.take (j * esz) ++ elem ++ data.drop (j * esz + esz)

/-- Modelled from the spec: rewrite an accessor into compacted form — a new
buffer of `unique` elements (same component type and normalization) where,
for each old index `i` with `remap[i]` defined, element `i` of the source
is copied into slot `remap[i]`.  Out-of-range slots are discarded, as a JS
typed-array store would do. -/
def remapAttribute (acc : Accessor) (remap : List (Option Nat)) (unique : Nat) : Accessor :=
  { acc with
    array :=
      { storage := acc.array.storage,
        data := remap.enum.foldl
          (fun d e =>
            match e.2 with
            | some j =>
              if j < unique then setElement d acc.elementSize j (getElement acc.array.data acc.elementSize e.1) else d
            | none => d)
          (List.replicate (unique * acc.elementSize) 0) } }

/-- First-occurrence deduplication (JS `Array.from(new Set(...))` order). -/
def dedupFirst (l : List Nat) : List Nat :=
  l.foldl (fun acc a => if a ∈ acc then acc else acc ++ [a]) []

/-- Function `deepListAttributes` of `utils.ts` (modelled from the spec): every
attribute accessor reachable from the primitive, morph targets included,
deduplicated by identity in first-occurrence order. -/
def deepListAttributes (p : Primitive) : List Nat :=
  dedupFirst (p.attributes.map (·.2) ++ p.targets.flatMap (fun t => t.map (·.2)))

/-- Function `deepSwapAttribute` of `utils.ts` (modelled from the spec): swap every
reference to `src` within the primitive — named attribute slots and all
morph-target slots — to `dst`. -/
def deepSwapAttribute (p : Primitive) (src dst : Nat) : Primitive :=
  { p with
    attributes := p.attributes.map (fun e => (e.1, if e.2 == src then dst else e.2)),
    targets := p.targets.map (fun t => t.map (fun e => (e.1, if e.2 == src then dst else e.2))) }

/-- One iteration of the attribute write-back loop (source lines 173-178
and 227-232): shallow-clone the source accessor, remap the clone, deep-swap
the primitive's references over to it, and dispose the source accessor if
only the root still references it. -/
def processAttribute (mi pi : Nat) (remap : List (Option Nat)) (unique : Nat) (doc : Document) (aid : Nat) : Document :=
  match lookupAccessor doc aid with
  | none => doc
  | some src =>
    let dstId := doc.nextId
    let doc1 := addAccessor doc (remapAttribute src remap unique)
    let doc2 := updatePrim doc1 mi pi (fun p => deepSwapAttribute p aid dstId)
    if listParentsCount doc2 aid = 1 then removeAccessor doc2 aid else doc2

/-- The attribute write-back loop over a deep attribute listing. -/
def writeAttributes (mi pi : Nat) (remap : List (Option Nat)) (unique : Nat) (doc : Document) (attrs : List Nat) : Document :=
  attrs.foldl (processAttribute mi pi remap unique) doc

/-! ## Options -/

/-- Structure `SimplifyOptions` of the source: the (duck-typed, possibly absent)
decimator capability plus the optional numeric settings. -/
structure SimplifyOptions where
  simplifier : Option Simplifier
  ratio : Option Rat
  error : Option Rat
  lockBorder : Option Bool

/-- The resolved form after merging with `SIMPLIFY_DEFAULTS`. -/
structure ResolvedOptions where
  ratio : Rat
  error : Rat
  lockBorder : Bool
deriving DecidableEq, Repr

/-- Constant `SIMPLIFY_DEFAULTS` of the source: ratio 0, error 0.0001, no border
lock. -/
def SIMPLIFY_DEFAULTS : ResolvedOptions :=
  { ratio := 0, error := 1 / 10000, lockBorder := false }

/-- Spreading `{ ...SIMPLIFY_DEFAULTS, ..._options }`. -/
def resolveOptions (o : SimplifyOptions) : ResolvedOptions :=
  { ratio := o.ratio.getD SIMPLIFY_DEFAULTS.ratio,
    error := o.error.getD SIMPLIFY_DEFAULTS.error,
    lockBorder := o.lockBorder.getD SIMPLIFY_DEFAULTS.lockBorder }

/-! ## Triangle mode (source lines 135-188) -/

/-- Source line 155: `Math.floor((options.ratio * srcIndexCount) / 3) * 3`. -/
def targetIndexCount (ratio : Rat) (srcIndexCount : Nat) : Nat :=
  ((ratio * srcIndexCount / 3).floor).toNat * 3

/-- The numeric stage of the triangle path — normalize the inputs, run the
external decimator (source lines 144-165) and compact its output (line
167); returns `compactMesh`'s triple. -/
def triPipeline (s : Simplifier) (opts : ResolvedOptions) (position srcIndices : Accessor) : List (Option Nat) × Nat × List Nat :=
  let positionArray := normalizeArr position.array position.getComponentType position.normalized
  let indicesArray := natsOfArr srcIndices.array
  let targetCount := targetIndexCount opts.ratio srcIndices.getCount
  let flags := if opts.lockBorder then ["LockBorder"] else []
  s.compactMesh (s.simplify indicesArray positionArray 3 targetCount opts.error flags).1

/-- Source line 183: the new index array —
`srcVertexCount <= 65534 ? new Uint16Array(dstIndicesArray) : dstIndicesArray`.
`srcVertexCount` is the SOURCE vertex count (`position.getCount()`, line
139); the `Uint16Array` conversion truncates each value mod `2 ^ 16`. -/
def widthArr (s : Simplifier) (opts : ResolvedOptions) (position srcIndices : Accessor) : TypedArr :=
  if position.getCount ≤ 65534 then
    { storage := .ushort,
      data := List.map (fun v : Nat => ((v % 2 ^ 16 : Nat) : Rat)) (triPipeline s opts position srcIndices).2.2 }
  else
    { storage := .uint,
      data := List.map (fun v : Nat => (v : Rat)) (triPipeline s opts position srcIndices).2.2 }

/-- The triangle path of `simplifyPrimitive` after the non-null assertions
have been discharged (source lines 138-187): run the pipeline, write back
every attribute, then build the compacted index accessor — stored per
`widthArr` — swap the primitive's indices over to it and dispose the
source index accessor if only the root still references it. -/
def simplifyTriangles (s : Simplifier) (opts : ResolvedOptions) (doc : Document) (mi pi : Nat) (prim : Primitive) (position : Accessor) (idxId : Nat) (srcIndices : Accessor) : Document × Simplifier :=
  let c := triPipeline s opts position srcIndices
  let doc1 := writeAttributes mi pi c.1 c.2.1 doc (deepListAttributes prim)
  let dstId := doc1.nextId
  let doc2 := addAccessor doc1 { srcIndices with array := widthArr s opts position srcIndices }
  let doc3 := updatePrim doc2 mi pi (fun p => { p with indices := some dstId })
  if listParentsCount doc3 idxId = 1 then (removeAccessor doc3 idxId, s) else (doc3, s)

/-! ## Point mode (source lines 190-235) -/

/-- Function `unweldPrimitive` of `unweld.ts` (modelled from the spec: expand an
indexed primitive into a fully explicit one-entry-per-point representation
— for every attribute accessor, gather the source elements in index order
into a fresh accessor, swap the primitive over to it and dispose the source
if only the root still references it; finally drop the index accessor the
same way). -/
def unweldPrimitive (doc : Document) (mi pi : Nat) : Document :=
  match getPrim doc mi pi with
  | none => doc
  | some prim =>
    match prim.indices with
    | none => doc
    | some iid =>
      match lookupAccessor doc iid with
      | none => doc
      | some iacc =>
        let idx := natsOfArr iacc.array
        let step := fun (d : Document) (aid : Nat) =>
          match lookupAccessor d aid with
          | none => d
          | some src =>
            let dstId := d.nextId
            let gathered := idx.flatMap (fun i => getElement src.array.data src.elementSize i)
            let d1 := addAccessor d { src with array := { storage := src.array.storage, data := gathered } }
            let d2 := updatePrim d1 mi pi (fun p => deepSwapAttribute p aid dstId)
            if listParentsCount d2 aid = 1 then removeAccessor d2 aid else d2
        let doc1 := (deepListAttributes prim).foldl step doc
        let doc2 := updatePrim doc1 mi pi (fun p => { p with indices := none })
        if listParentsCount doc2 iid = 1 then removeAccessor doc2 iid else doc2

/-- Source lines 199-212: the arrays (and the color stride) as handed to
the point decimator.  Note that the source dequantizes the color array with
the POSITION accessor's component type and normalized flag. -/
def pointsDecimatorInputs (position : Accessor) (color : Option Accessor) : List Rat × Option (List Rat) × Option Nat :=
  let positionArray := normalizeArr position.array position.getComponentType position.normalized
  let colorArray := color.map (fun c => normalizeArr c.array position.getComponentType position.normalized)
  let colorStride := color.map (fun c => c.getComponentSize)
  (positionArray, colorArray, colorStride)

/-- Function `_simplifyPoints` (source lines 190-235): unweld if indexed, normalize
position and color, enable the experimental-features toggle, invoke the
point entry of the decimator, disable the toggle, compact, and write back
every attribute.  If the decimator throws, the exception propagates with
the toggle still enabled; if the entry point is absent, dereferencing it
raises a `TypeError` (also with the toggle already enabled). -/
def _simplifyPoints (s : Simplifier) (opts : ResolvedOptions) (doc0 : Document) (mi pi : Nat) (prim0 : Primitive) : Except JsError Document × Simplifier :=
  let doc := if prim0.indices.isSome then unweldPrimitive doc0 mi pi else doc0
  match getPrim doc mi pi with
  | none => (.error .typeError, s)
  | some prim =>
    match prim.getAttribute "POSITION" with
    | none => (.error .typeError, s)
    | some posId =>
      match lookupAccessor doc posId with
      | none => (.error .typeError, s)
      | some position =>
        let color := (prim.getAttribute "COLOR_0").bind (lookupAccessor doc)
        let srcVertexCount := position.getCount
        let inputs := pointsDecimatorInputs position color
        let s1 := { s with useExperimentalFeatures := true }
        let targetCount := ((opts.ratio * srcVertexCount).floor).toNat
        match s1.simplifyPoints with
        | none => (.error .typeError, s1)
        | some f =>
          match f s1.useExperimentalFeatures inputs.1 3 targetCount inputs.2.1 inputs.2.2 with
          | .error msg => (.error (.thrown msg), s1)
          | .ok dstIndicesArray =>
            let s2 := { s1 with useExperimentalFeatures := false }
            let c := s2.compactMesh dstIndicesArray
            let doc1 := writeAttributes mi pi c.1 c.2.1 doc (deepListAttributes prim)
            (.ok doc1, s2)

/-- Function `simplifyPrimitive` (source lines 127-188): dispatch points to
`_simplifyPoints`; otherwise force the POSITION attribute and the index
accessor (a missing one raises a `TypeError`, modelled as `.error
.typeError`) and run the triangle path. -/
def simplifyPrimitive (s : Simplifier) (opts : ResolvedOptions) (doc : Document) (mi pi : Nat) : Except JsError Document × Simplifier :=
  match getPrim doc mi pi with
  | none => (.error .typeError, s)
  | some prim =>
    if prim.mode = .POINTS then _simplifyPoints s opts doc mi pi prim
    else
      match prim.getAttribute "POSITION", prim.indices with
      | some posId, some idxId =>
        match lookupAccessor doc posId, lookupAccessor doc idxId with
        | some position, some srcIndices =>
          let r := simplifyTriangles s opts doc mi pi prim position idxId srcIndices
          (.ok r.1, r.2)
        | _, _ => (.error .typeError, s)
      | _, _ => (.error .typeError, s)

/-! ## The transform (source lines 75-125) -/

/-- Observation helpers: `prim.getIndices()!.getCount()` and
`prim.getAttribute('POSITION')!.getCount()` as used by the transform loop. -/
def primIndicesCount (doc : Document) (mi pi : Nat) : Option Nat :=
  (getPrim doc mi pi).bind (fun p => p.indices.bind (fun i => (lookupAccessor doc i).map Accessor.getCount))

def primPositionCount (doc : Document) (mi pi : Nat) : Option Nat :=
  (getPrim doc mi pi).bind (fun p => (p.getAttribute "POSITION").bind (fun i => (lookupAccessor doc i).map Accessor.getCount))

def primIndicesArr (doc : Document) (mi pi : Nat) : Option TypedArr :=
  (getPrim doc mi pi).bind (fun p => p.indices.bind (fun i => (lookupAccessor doc i).map Accessor.array))

def primIndicesStorage (doc : Document) (mi pi : Nat) : Option ComponentType :=
  (primIndicesArr doc mi pi).map TypedArr.storage

/-- Outcome of processing one primitive of the transform loop. -/
inductive StepResult
  | err (e : JsError) (s : Simplifier)
  | kept (doc : Document) (s : Simplifier) (warning : Option String)
  | removed (doc : Document) (s : Simplifier)

def unsupportedWarning : String :=
  "simplify: Skipping primitive of mesh: Unsupported draw mode."

/-- The body of the transform's per-primitive loop (source lines 93-101):
triangles are simplified and disposed when the resulting index count is 0;
points are simplified — only when the decimator has the point entry point —
and disposed when the resulting POSITION count is 0; anything else is left
untouched with a non-fatal warning. -/
def simplifyLoopBody (s : Simplifier) (opts : ResolvedOptions) (doc : Document) (mi pi : Nat) : StepResult :=
  match getPrim doc mi pi with
  | none => .err .typeError s
  | some prim =>
    match prim.mode with
    | .TRIANGLES =>
      match simplifyPrimitive s opts doc mi pi with
      | (.error e, s') => .err e s'
      | (.ok doc', s') =>
        match primIndicesCount doc' mi pi with
        | none => .err .typeError s'
        | some n => if n = 0 then .removed (removePrim doc' mi pi) s' else .kept doc' s' none
    | .POINTS =>
      if s.simplifyPoints.isSome then
        match simplifyPrimitive s opts doc mi pi with
        | (.error e, s') => .err e s'
        | (.ok doc', s') =>
          match primPositionCount doc' mi pi with
          | none => .err .typeError s'
          | some n => if n = 0 then .removed (removePrim doc' mi pi) s' else .kept doc' s' none
      else .kept doc s (some unsupportedWarning)
    | .OTHER => .kept doc s (some unsupportedWarning)

/-- The per-primitive loop over one mesh.  The source iterates over a
snapshot of the primitive list, disposing primitives as it goes; here the
position index advances only when the current primitive is kept, which
processes the same primitives in the same order.  `n` is the number of
primitives still to process. -/
def processPrims (opts : ResolvedOptions) (mi : Nat) : Nat → Nat → Document → Simplifier → List String → Except JsError (Document × Simplifier × List String)
  | 0, _, doc, s, ws => .ok (doc, s, ws)
  | n + 1, pi, doc, s, ws =>
    match simplifyLoopBody s opts doc mi pi with
    | .err e _ => .error e
    | .kept doc' s' w => processPrims opts mi n (pi + 1) doc' s' (ws ++ w.toList)
    | .removed doc' s' => processPrims opts mi n pi doc' s' ws

/-- Process one mesh (all its primitives, then the empty-mesh disposal of
source line 104).  The boolean reports whether the mesh survived. -/
def simplifyMeshStep (opts : ResolvedOptions) (mi : Nat) (doc : Document) (s : Simplifier) (ws : List String) : Except JsError (Document × Simplifier × List String × Bool) :=
  match getMesh doc mi with
  | none => .ok (doc, s, ws, true)
  | some m =>
    match processPrims opts mi m.primitives.length 0 doc s ws with
    | .error e => .error e
    | .ok (doc', s', ws') =>
      match getMesh doc' mi with
      | none => .ok (doc', s', ws', true)
      | some m' =>
        if m'.primitives.length = 0 then .ok (removeMesh doc' mi, s', ws', false)
        else .ok (doc', s', ws', true)

/-- The loop over all meshes (source lines 91-105); the mesh index advances
only past surviving meshes. -/
def processMeshes (opts : ResolvedOptions) : Nat → Nat → Document → Simplifier → List String → Except JsError (Document × Simplifier × List String)
  | 0, _, doc, s, ws => .ok (doc, s, ws)
  | k + 1, mi, doc, s, ws =>
    match simplifyMeshStep opts mi doc s ws with
    | .error e => .error e
    | .ok (doc', s', ws', kept) => processMeshes opts k (if kept then mi + 1 else mi) doc' s' ws'

def simplifyMeshes (opts : ResolvedOptions) (doc : Document) (s : Simplifier) : Except JsError (Document × Simplifier × List String) :=
  processMeshes opts doc.meshes.length 0 doc s []

/-- The phases of the transform, in the order the source awaits them. -/
inductive Phase
  | ready
  | weldPhase
  | simplifyPhase
  | prunePhase
  | dedupPhase
deriving DecidableEq, Repr

/-- The consumed sub-pipelines (weld, prune, dedup), abstract here: the
spec scopes them out and consumes them only through their contracts. -/
structure SubPipelines where
  weld : Document → Document
  prune : Document → Document
  dedup : Document → Document

/-- Function `isTransformPending` of `utils.ts` (modelled from the spec: the shared
pipeline context lists the scheduled pass names; a pass counts as pending
when its last occurrence comes after the last occurrence of the current
pass — JS `lastIndexOf` returning `-1` for an absent name). -/
def lastIndexOfStr (l : List String) (x : String) : Int :=
  l.enum.foldl (fun acc e => if e.2 = x then (e.1 : Int) else acc) (-1)

def isTransformPending (context : Option (List String)) (initial pending : String) : Bool :=
  match context with
  | none => false
  | some stack => decide (lastIndexOfStr stack initial < lastIndexOfStr stack pending)

def NAME : String := "simplify"

/-- Outcome of running the whole transform. -/
inductive TransformOutcome
  | notRun (msg : String) (doc : Document)
  | aborted (e : JsError) (phases : List Phase)
  | done (doc : Document) (s : Simplifier) (warnings : List String) (phases : List Phase)

/-- The `simplify` transform (source lines 75-125).  The factory throws
before producing any transform when the decimator capability is absent
(`.notRun`, document untouched, no phase entered).  Otherwise it awaits
the decimator's readiness, runs the non-overwriting weld pre-pass, the
per-primitive loop, the prune pass over accessors and nodes and — unless
the shared context already schedules a pass named "dedup" after this one —
the dedup pass restricted to accessors.  `phases` records the order. -/
def runSimplify (pipes : SubPipelines) (opts : SimplifyOptions) (context : Option (List String)) (doc : Document) : TransformOutcome :=
  match opts.simplifier with
  | none => .notRun "simplify: simplifier dependency required - install meshoptimizer." doc
  | some s =>
    let ropts := resolveOptions opts
    let doc1 := pipes.weld doc
    match simplifyMeshes ropts doc1 s with
    | .error e => .aborted e [.ready, .weldPhase, .simplifyPhase]
    | .ok (doc2, s', warnings) =>
      let doc3 := pipes.prune doc2
      if isTransformPending context NAME "dedup" then
        .done doc3 s' warnings [.ready, .weldPhase, .simplifyPhase, .prunePhase]
      else
        .done (pipes.dedup doc3) s' warnings [.ready, .weldPhase, .simplifyPhase, .prunePhase, .dedupPhase]

/-! ## A reference decimator instance (for concrete evaluation) -/

def firstIdx (l : List Nat) (v : Nat) : Nat := l.findIdx (fun x => x == v)

/-- Reference triangle decimation satisfying the documented contract: keep
a whole-triangle prefix of the requested size (everything, when the target
is not a constraint). -/
def refSimplifyFn (idx : List Nat) (_pos : List Rat) (_st : Nat) (tc : Nat) (_eb : Rat) (_fl : List String) : List Nat × Rat :=
  if tc < idx.length then (idx.take (3 * (tc / 3)), 0)
  else if 3 ∣ idx.length then (idx, 0)
  else ([], 0)

/-- Reference compaction: a dense remap in first-use order. -/
def refCompactMesh (idx : List Nat) : List (Option Nat) × Nat × List Nat :=
  let uniq := dedupFirst idx
  let m := if idx.isEmpty then 0 else idx.foldl max 0 + 1
  ((List.range m).map (fun v => if v ∈ uniq then some (firstIdx uniq v) else none),
    uniq.length,
    idx.map (firstIdx uniq))

/-- Reference point decimation: keep the first `tc` points. -/
def refSimplifyPointsFn (_flag : Bool) (pos : List Rat) (_st tc : Nat) (_col : Option (List Rat)) (_cs : Option Nat) : Except String (List Nat) :=
  .ok ((List.range (pos.length / 3)).take tc)

def refSimplifier : Simplifier :=
  { simplify := refSimplifyFn,
    compactMesh := refCompactMesh,
    simplifyPoints := some refSimplifyPointsFn,
    useExperimentalFeatures := false }

/-- A decimator whose point entry always throws (used to exercise the
failure path of `_simplifyPoints`). -/
def throwingSimplifier : Simplifier :=
  { refSimplifier with simplifyPoints := some (fun _ _ _ _ _ _ => .error "boom") }

/-! ### The reference instance satisfies the contract -/

theorem dedupFirst_loop_mem (l acc : List Nat) (a : Nat) :
    a ∈ l.foldl (fun acc b => if b ∈ acc then acc else acc ++ [b]) acc ↔ a ∈ acc ∨ a ∈ l := by
  induction l generalizing acc with
  | nil => simp
  | cons b l ih =>
    simp only [List.foldl_cons, ih]
    by_cases hb : b ∈ acc
    · simp only [if_pos hb, List.mem_cons]
      constructor
      · rintro (h | h)
        · exact Or.inl h
        · exact Or.inr (Or.inr h)
      · rintro (h | h | h)
        · exact Or.inl h
        · exact Or.inl (h ▸ hb)
        · exact Or.inr h
    · simp only [if_neg hb, List.mem_append, List.mem_singleton, List.mem_cons]
      tauto

theorem mem_dedupFirst (l : List Nat) (a : Nat) : a ∈ dedupFirst l ↔ a ∈ l := by
  unfold dedupFirst
  rw [dedupFirst_loop_mem]
  simp

theorem dedupFirst_loop_nodup (l acc : List Nat) (h : acc.Nodup) :
    (l.foldl (fun acc b => if b ∈ acc then acc else acc ++ [b]) acc).Nodup := by
  induction l generalizing acc with
  | nil => simpa
  | cons b l ih =>
    simp only [List.foldl_cons]
    by_cases hb : b ∈ acc
    · rw [if_pos hb]; exact ih acc h
    · rw [if_neg hb]
      refine ih _ ?_
      simp [List.nodup_append, h, hb]

theorem nodup_dedupFirst (l : List Nat) : (dedupFirst l).Nodup :=
  dedupFirst_loop_nodup l [] List.nodup_nil

theorem nodup_length_le_of_lt (l : List Nat) (n : Nat) (hn : l.Nodup) (hlt : ∀ v ∈ l, v < n) :
    l.length ≤ n := by
  have hcard : l.toFinset.card = l.length := List.toFinset_card_of_nodup hn
  have hsub : l.toFinset ⊆ Finset.range n := by
    intro x hx
    rw [List.mem_toFinset] at hx
    exact Finset.mem_range.mpr (hlt x hx)
  have := Finset.card_le_card hsub
  rw [hcard, Finset.card_range] at this
  exact this

theorem refSimplifier_contract : SimplifierContract refSimplifier := by
  constructor
  · intro idx pos st tc eb fl v hv
    simp only [refSimplifier, refSimplifyFn] at hv
    split at hv
    · exact List.take_subset _ _ hv
    · split at hv
      · exact hv
      · simp at hv
  · intro idx pos st tc eb fl
    simp only [refSimplifier, refSimplifyFn]
    split
    · rename_i h
      rw [List.length_take]
      have h1 : 3 * (tc / 3) ≤ tc := by
        rw [Nat.mul_comm]
        exact Nat.div_mul_le_self tc 3
      rw [Nat.min_eq_left (Nat.le_of_lt (Nat.lt_of_le_of_lt h1 h))]
      exact Dvd.intro _ rfl
    · split
      · assumption
      · simp
  · intro idx pos st tc eb fl
    simp only [refSimplifier, refSimplifyFn]
    split
    · show (List.take (3 * (tc / 3)) idx).length ≤ idx.length
      rw [List.length_take]
      exact Nat.min_le_right _ _
    · split
      · exact Nat.le_refl _
      · simp
  · intro idx
    simp [refSimplifier, refCompactMesh]
  · intro idx v hv
    simp only [refSimplifier, refCompactMesh, List.mem_map] at hv ⊢
    obtain ⟨w, hw, rfl⟩ := hv
    have hmem : w ∈ dedupFirst idx := (mem_dedupFirst idx w).mpr hw
    have : ∃ x ∈ dedupFirst idx, (fun x => x == w) x = true := ⟨w, hmem, by simp⟩
    exact List.findIdx_lt_length_of_exists this
  · intro idx n hlt
    simp only [refSimplifier, refCompactMesh]
    refine nodup_length_le_of_lt _ _ (nodup_dedupFirst idx) ?_
    intro v hv
    exact hlt v ((mem_dedupFirst idx v).mp hv)

/-! ## Structural lemmas about the document operations -/

/-- Store well-formedness: every live accessor id is below the fresh-id
counter. -/
abbrev StoreWF (doc : Document) : Prop := ∀ p ∈ doc.accessors, p.1 < doc.nextId

theorem listModify_getElem? (f : α → α) (i j : Nat) (l : List α) :
    (listModify f i l)[j]? = if j = i then (l[j]?).map f else l[j]? := by
  induction l generalizing i j with
  | nil => simp [listModify]
  | cons a as ih =>
    cases i with
    | zero =>
      cases j with
      | zero => simp [listModify]
      | succ j => simp [listModify]
    | succ i =>
      cases j with
      | zero => simp [listModify]
      | succ j => simpa [listModify] using ih i j

theorem lookup_addAccessor_ne (doc : Document) (acc : Accessor) (a : Nat) (h : a ≠ doc.nextId) :
    lookupAccessor (addAccessor doc acc) a = lookupAccessor doc a := by
  simp only [lookupAccessor, addAccessor, List.find?_append]
  cases hf : doc.accessors.find? (fun e => e.1 == a) with
  | some v => simp [hf]
  | none =>
    simp only [hf, Option.orElse, List.find?]
    have : (doc.nextId == a) = false := by simp [Ne.symm h]
    simp [this]

theorem lookup_addAccessor_self (doc : Document) (acc : Accessor) (hwf : StoreWF doc) :
    lookupAccessor (addAccessor doc acc) doc.nextId = some acc := by
  simp only [lookupAccessor, addAccessor, List.find?_append]
  cases hf : doc.accessors.find? (fun e => e.1 == doc.nextId) with
  | some v =>
    exfalso
    have hmem := List.mem_of_find?_eq_some hf
    have := hwf v hmem
    have hid : v.1 = doc.nextId := by
      have := List.find?_some hf
      simpa using this
    omega
  | none => simp [Option.orElse, List.find?]

theorem lookup_removeAccessor (doc : Document) (b a : Nat) :
    lookupAccessor (removeAccessor doc b) a = if a = b then none else lookupAccessor doc a := by
  simp only [lookupAccessor, removeAccessor]
  induction doc.accessors with
  | nil => simp
  | cons e l ih =>
    by_cases heb : e.1 = b
    · by_cases hab : a = b
      · subst hab
        simp only [List.filter, heb]
        simp only [heb, bne_self_eq_false] at ih ⊢
        exact ih
      · simp only [List.filter]
        have : (e.1 != b) = false := by simp [heb]
        rw [this]
        have : (e.1 == a) = false := by
          simp only [beq_eq_false_iff_ne]
          intro hc
          exact hab (by rw [← hc, heb])
        simpa [List.find?, this, hab] using ih
    · simp only [List.filter]
      have : (e.1 != b) = true := by simp [heb]
      rw [this]
      by_cases hea : e.1 = a
      · have hb : (e.1 == a) = true := by simp [hea]
        by_cases hab : a = b
        · exact absurd (hab ▸ hea) heb
        · simp [List.find?, hb, hab]
      · have hb : (e.1 == a) = false := by simp [hea]
        simpa [List.find?, hb] using ih

theorem lookup_updatePrim (doc : Document) (mi pi : Nat) (f : Primitive → Primitive) (a : Nat) :
    lookupAccessor (updatePrim doc mi pi f) a = lookupAccessor doc a := rfl

theorem lookup_updateMesh (doc : Document) (mi : Nat) (f : Mesh → Mesh) (a : Nat) :
    lookupAccessor (updateMesh doc mi f) a = lookupAccessor doc a := rfl

theorem getPrim_addAccessor (doc : Document) (acc : Accessor) (mi pi : Nat) :
    getPrim (addAccessor doc acc) mi pi = getPrim doc mi pi := rfl

theorem getPrim_removeAccessor (doc : Document) (b : Nat) (mi pi : Nat) :
    getPrim (removeAccessor doc b) mi pi = getPrim doc mi pi := rfl

theorem getPrim_updatePrim_same (doc : Document) (mi pi : Nat) (f : Primitive → Primitive) :
    getPrim (updatePrim doc mi pi f) mi pi = (getPrim doc mi pi).map f := by
  simp only [getPrim, getMesh, updatePrim, updateMesh, listModify_getElem?, if_pos rfl]
  cases doc.meshes[mi]? with
  | none => rfl
  | some m => simp [listModify_getElem?]

theorem getPrim_updatePrim_other (doc : Document) (mi pi mj pj : Nat) (f : Primitive → Primitive)
    (h : mi ≠ mj ∨ pi ≠ pj) :
    getPrim (updatePrim doc mi pi f) mj pj = getPrim doc mj pj := by
  simp only [getPrim, getMesh, updatePrim, updateMesh, listModify_getElem?]
  by_cases hm : mj = mi
  · subst hm
    have hp : pi ≠ pj := h.resolve_left (fun hc => hc rfl)
    simp only [if_pos rfl]
    cases doc.meshes[mj]? with
    | none => rfl
    | some m => simp [listModify_getElem?, Ne.symm hp]
  · simp [hm]

theorem nextId_addAccessor (doc : Document) (acc : Accessor) :
    (addAccessor doc acc).nextId = doc.nextId + 1 := rfl

theorem nextId_updatePrim (doc : Document) (mi pi : Nat) (f : Primitive → Primitive) :
    (updatePrim doc mi pi f).nextId = doc.nextId := rfl

theorem nextId_removeAccessor (doc : Document) (b : Nat) :
    (removeAccessor doc b).nextId = doc.nextId := rfl

theorem storeWF_addAccessor (doc : Document) (acc : Accessor) (h : StoreWF doc) :
    StoreWF (addAccessor doc acc) := by
  intro p hp
  simp only [addAccessor, List.mem_append, List.mem_singleton] at hp
  rcases hp with hp | hp
  · have := h p hp
    simp only [addAccessor]
    omega
  · subst hp
    simp [addAccessor]

theorem storeWF_updatePrim (doc : Document) (mi pi : Nat) (f : Primitive → Primitive) (h : StoreWF doc) :
    StoreWF (updatePrim doc mi pi f) := h

theorem storeWF_removeAccessor (doc : Document) (b : Nat) (h : StoreWF doc) :
    StoreWF (removeAccessor doc b) := by
  intro p hp
  exact h p (List.mem_of_mem_filter hp)

theorem lookup_mem (doc : Document) (a : Nat) (acc : Accessor) (h : lookupAccessor doc a = some acc) :
    (a, acc) ∈ doc.accessors := by
  simp only [lookupAccessor, Option.map_eq_some'] at h
  obtain ⟨e, he, hv⟩ := h
  have hmem := List.mem_of_find?_eq_some he
  have hid : e.1 = a := by simpa using List.find?_some he
  have : e = (a, acc) := by
    cases e
    simp only at hid hv
    simp [hid, hv]
  exact this ▸ hmem

theorem lookup_lt_nextId (doc : Document) (a : Nat) (acc : Accessor) (hwf : StoreWF doc)
    (h : lookupAccessor doc a = some acc) : a < doc.nextId :=
  hwf (a, acc) (lookup_mem doc a acc h)

/-- Attribute-slot occurrence (named attributes or morph targets), the part
of `primReferences` that `deepSwapAttribute` rewrites. -/
def attrOccurs (p : Primitive) (aid : Nat) : Bool :=
  p.attributes.any (fun e => e.2 == aid) || p.targets.any (fun t => t.any (fun e => e.2 == aid))

theorem primReferences_eq (p : Primitive) (aid : Nat) :
    primReferences p aid = ((p.indices == some aid) || attrOccurs p aid) := by
  simp [primReferences, primRef, attrOccurs, Bool.or_assoc]

/-- A primitive reachable in the document contributes its references to the
parent count, so an accessor it references is never down at a bare root
reference. -/
theorem parentCount_ne_one (doc : Document) (mj pj : Nat) (q : Primitive) (aid : Nat)
    (hq : getPrim doc mj pj = some q) (href : primRef q aid = true) :
    listParentsCount doc aid ≠ 1 := by
  have hmesh : ∃ m, doc.meshes[mj]? = some m ∧ m.primitives[pj]? = some q := by
    simp only [getPrim, getMesh] at hq
    cases hm : doc.meshes[mj]? with
    | none => rw [hm] at hq; simp at hq
    | some m => rw [hm] at hq; exact ⟨m, rfl, hq⟩
  obtain ⟨m, hm, hp⟩ := hmesh
  have hmm : m ∈ doc.meshes := by
    obtain ⟨hlt, hget⟩ := List.getElem?_eq_some.mp hm
    exact hget ▸ List.getElem_mem hlt
  have hqm : q ∈ m.primitives := by
    obtain ⟨hlt, hget⟩ := List.getElem?_eq_some.mp hp
    exact hget ▸ List.getElem_mem hlt
  have h1 : 1 ≤ primParentCount q aid := by
    simp [primParentCount, href]
  have h2 : primParentCount q aid ≤ (m.primitives.map (fun p => primParentCount p aid)).sum := by
    refine List.single_le_sum (fun a _ => Nat.zero_le a) _ ?_
    exact List.mem_map.mpr ⟨q, hqm, rfl⟩
  have h3 : (m.primitives.map (fun p => primParentCount p aid)).sum ≤
      (doc.meshes.map (fun m => (m.primitives.map (fun p => primParentCount p aid)).sum)).sum := by
    refine List.single_le_sum (fun a _ => Nat.zero_le a) _ ?_
    exact List.mem_map.mpr ⟨m, hmm, rfl⟩
  simp only [listParentsCount]
  omega

theorem any_congrH (l : List α) (p q : α → Bool) (h : ∀ a ∈ l, p a = q a) :
    l.any p = l.any q := by
  induction l with
  | nil => rfl
  | cons a as ih =>
    simp only [List.any_cons]
    rw [h a (List.mem_cons_self a as), ih (fun b hb => h b (List.mem_cons_of_mem a hb))]

theorem attrOccurs_deepSwap (p : Primitive) (b dst aid : Nat) (hdst : dst ≠ aid) :
    attrOccurs (deepSwapAttribute p b dst) aid = if b = aid then false else attrOccurs p aid := by
  have entry : ∀ v : Nat, ((if v == b then dst else v) == aid) =
      (if b = aid then false else (v == aid)) := by
    intro v
    by_cases hvb : v = b
    · subst hvb
      by_cases hba : v = aid
      · simp [hba, hdst]
      · simp [hba, hdst]
    · have hf : (v == b) = false := by simp [hvb]
      rw [hf]
      simp only [Bool.false_eq_true, if_false]
      by_cases hba : b = aid
      · subst hba
        simp [hvb]
      · simp [hba]
  simp only [attrOccurs, deepSwapAttribute, List.any_map]
  have h1 : p.attributes.any ((fun e => e.2 == aid) ∘ fun e => (e.1, if e.2 == b then dst else e.2)) =
      p.attributes.any (fun e => if b = aid then false else (e.2 == aid)) := by
    refine any_congrH _ _ _ ?_
    intro e _
    simp only [Function.comp]
    exact entry e.2
  have h2 : p.targets.any ((fun t => t.any fun e => e.2 == aid) ∘ fun t => t.map fun e => (e.1, if e.2 == b then dst else e.2)) =
      p.targets.any (fun t => t.any (fun e => if b = aid then false else (e.2 == aid))) := by
    refine any_congrH _ _ _ ?_
    intro t _
    simp only [Function.comp, List.any_map]
    refine any_congrH _ _ _ ?_
    intro e _
    simp only [Function.comp]
    exact entry e.2
  rw [h1, h2]
  by_cases hba : b = aid
  · simp [hba]
  · simp [hba]

/-- Setting the indices slot does not change attribute-slot occurrence. -/
theorem attrOccurs_setIndices (p : Primitive) (x : Option Nat) (aid : Nat) :
    attrOccurs { p with indices := x } aid = attrOccurs p aid := rfl

/-- Membership in the deep attribute listing is exactly attribute-slot
occurrence. -/
theorem mem_deepListAttributes (p : Primitive) (aid : Nat) :
    aid ∈ deepListAttributes p ↔ attrOccurs p aid = true := by
  simp only [deepListAttributes, mem_dedupFirst, List.mem_append, attrOccurs, Bool.or_eq_true,
    List.any_eq_true, List.mem_map, List.mem_flatMap]
  constructor
  · rintro (⟨e, he, rfl⟩ | ⟨t, ht, e, he2, rfl⟩)
    · exact Or.inl ⟨e, he, by simp⟩
    · exact Or.inr ⟨t, ht, e, he2, by simp⟩
  · rintro (⟨e, he, hv⟩ | ⟨t, ht, e, he2, hv⟩)
    · exact Or.inl ⟨e, he, by simpa using hv.symm⟩
    · refine Or.inr ⟨t, ht, ?_⟩
      exact ⟨e, he2, by simpa using hv.symm⟩

/-! ## Invariants through the attribute write-back loop -/

/-- Structural invariant: well-formed store, monotone fresh-id counter, and
the primitive being processed stays present. -/
def StructInv (mi pi n0 : Nat) (doc : Document) : Prop :=
  StoreWF doc ∧ n0 ≤ doc.nextId ∧ (getPrim doc mi pi).isSome

/-- Isolation invariant: the shared accessor `aid` is still live with its
original contents, and the other primitive is untouched. -/
def SharedInv (mj pj aid : Nat) (primB : Primitive) (acc0 : Accessor) (doc : Document) : Prop :=
  lookupAccessor doc aid = some acc0 ∧ getPrim doc mj pj = some primB

/-- Swap-completeness invariant: the primitive being processed no longer
holds `aid` in any attribute slot. -/
def KInv (mi pi aid : Nat) (doc : Document) : Prop :=
  ∀ p', getPrim doc mi pi = some p' → attrOccurs p' aid = false

theorem processAttribute_structInv (mi pi : Nat) (rm : List (Option Nat)) (u n0 b : Nat)
    (doc : Document) (h : StructInv mi pi n0 doc) :
    StructInv mi pi n0 (processAttribute mi pi rm u doc b) := by
  obtain ⟨hwf, hn, hsome⟩ := h
  simp only [processAttribute]
  cases hb : lookupAccessor doc b with
  | none => exact ⟨hwf, hn, hsome⟩
  | some src =>
    simp only
    split
    · refine ⟨storeWF_removeAccessor _ _ (storeWF_updatePrim _ _ _ _ (storeWF_addAccessor _ _ hwf)), ?_, ?_⟩
      · simp only [nextId_removeAccessor, nextId_updatePrim, nextId_addAccessor]
        omega
      · rw [getPrim_removeAccessor, getPrim_updatePrim_same, getPrim_addAccessor]
        simpa using hsome
    · refine ⟨storeWF_updatePrim _ _ _ _ (storeWF_addAccessor _ _ hwf), ?_, ?_⟩
      · simp only [nextId_updatePrim, nextId_addAccessor]
        omega
      · rw [getPrim_updatePrim_same, getPrim_addAccessor]
        simpa using hsome

theorem writeAttributes_structInv (mi pi : Nat) (rm : List (Option Nat)) (u n0 : Nat)
    (L : List Nat) (doc : Document) (h : StructInv mi pi n0 doc) :
    StructInv mi pi n0 (writeAttributes mi pi rm u doc L) := by
  induction L generalizing doc with
  | nil => exact h
  | cons b L ih =>
    exact ih _ (processAttribute_structInv mi pi rm u n0 b doc h)

theorem processAttribute_sharedInv (mi pi mj pj : Nat) (rm : List (Option Nat)) (u n0 aid b : Nat)
    (primB : Primitive) (acc0 : Accessor) (doc : Document)
    (hne : mi ≠ mj ∨ pi ≠ pj) (href : primRef primB aid = true) (haid : aid < n0)
    (hstruct : StructInv mi pi n0 doc) (h : SharedInv mj pj aid primB acc0 doc) :
    SharedInv mj pj aid primB acc0 (processAttribute mi pi rm u doc b) := by
  obtain ⟨hwf, hn, _⟩ := hstruct
  obtain ⟨hlk, hpb⟩ := h
  simp only [processAttribute]
  cases hb : lookupAccessor doc b with
  | none => exact ⟨hlk, hpb⟩
  | some src =>
    simp only
    have hlk2 : lookupAccessor (updatePrim (addAccessor doc (remapAttribute src rm u)) mi pi
        (fun p => deepSwapAttribute p b doc.nextId)) aid = some acc0 := by
      rw [lookup_updatePrim, lookup_addAccessor_ne]
      · exact hlk
      · omega
    have hpb2 : getPrim (updatePrim (addAccessor doc (remapAttribute src rm u)) mi pi
        (fun p => deepSwapAttribute p b doc.nextId)) mj pj = some primB := by
      rw [getPrim_updatePrim_other _ _ _ _ _ _ hne, getPrim_addAccessor]
      exact hpb
    split
    · rename_i hcnt
      by_cases hba : b = aid
      · subst hba
        exact absurd hcnt (parentCount_ne_one _ mj pj primB b hpb2 href)
      · constructor
        · rw [lookup_removeAccessor, if_neg (fun h => hba h.symm)]
          exact hlk2
        · rw [getPrim_removeAccessor]
          exact hpb2
    · exact ⟨hlk2, hpb2⟩

theorem processAttribute_kinv (mi pi : Nat) (rm : List (Option Nat)) (u n0 aid b : Nat)
    (doc : Document) (haid : aid < n0) (hstruct : StructInv mi pi n0 doc)
    (hk : KInv mi pi aid doc) : KInv mi pi aid (processAttribute mi pi rm u doc b) := by
  obtain ⟨hwf, hn, hsome⟩ := hstruct
  simp only [processAttribute]
  cases hb : lookupAccessor doc b with
  | none => exact hk
  | some src =>
    simp only
    have hkey : ∀ p', getPrim (updatePrim (addAccessor doc (remapAttribute src rm u)) mi pi
        (fun p => deepSwapAttribute p b doc.nextId)) mi pi = some p' → attrOccurs p' aid = false := by
      intro p' hp'
      rw [getPrim_updatePrim_same, getPrim_addAccessor] at hp'
      cases hp0 : getPrim doc mi pi with
      | none => rw [hp0] at hp'; simp at hp'
      | some p0 =>
        rw [hp0] at hp'
        simp only [Option.map_some'] at hp'
        have hdst : doc.nextId ≠ aid := by omega
        obtain rfl : deepSwapAttribute p0 b doc.nextId = p' := Option.some.inj hp'
        rw [attrOccurs_deepSwap p0 b doc.nextId aid hdst]
        by_cases hba : b = aid
        · simp [hba]
        · simp only [if_neg hba]
          exact hk p0 hp0
    split
    · intro p' hp'
      rw [getPrim_removeAccessor] at hp'
      exact hkey p' hp'
    · exact hkey

theorem processAttribute_kinv_self (mi pi : Nat) (rm : List (Option Nat)) (u n0 aid : Nat)
    (acc0 : Accessor) (doc : Document) (haid : aid < n0) (hstruct : StructInv mi pi n0 doc)
    (hlk : lookupAccessor doc aid = some acc0) :
    KInv mi pi aid (processAttribute mi pi rm u doc aid) := by
  obtain ⟨hwf, hn, hsome⟩ := hstruct
  simp only [processAttribute, hlk]
  have hkey : ∀ p', getPrim (updatePrim (addAccessor doc (remapAttribute acc0 rm u)) mi pi
      (fun p => deepSwapAttribute p aid doc.nextId)) mi pi = some p' → attrOccurs p' aid = false := by
    intro p' hp'
    rw [getPrim_updatePrim_same, getPrim_addAccessor] at hp'
    cases hp0 : getPrim doc mi pi with
    | none => rw [hp0] at hp'; simp at hp'
    | some p0 =>
      rw [hp0] at hp'
      simp only [Option.map_some'] at hp'
      have hdst : doc.nextId ≠ aid := by omega
      obtain rfl : deepSwapAttribute p0 aid doc.nextId = p' := Option.some.inj hp'
      rw [attrOccurs_deepSwap p0 aid doc.nextId aid hdst]
      simp
  split
  · intro p' hp'
    rw [getPrim_removeAccessor] at hp'
    exact hkey p' hp'
  · exact hkey

/-- The combined invariant through the whole attribute write-back loop:
structure is preserved, the shared accessor and the other primitive are
untouched, and once the shared accessor's slot has been processed (or was
never held), the processed primitive no longer references it in any
attribute slot. -/
theorem writeAttributes_main (mi pi mj pj : Nat) (rm : List (Option Nat)) (u n0 aid : Nat)
    (primB : Primitive) (acc0 : Accessor) (L : List Nat) (doc : Document)
    (hne : mi ≠ mj ∨ pi ≠ pj) (href : primRef primB aid = true) (haid : aid < n0)
    (hstruct : StructInv mi pi n0 doc) (hsh : SharedInv mj pj aid primB acc0 doc)
    (hk : KInv mi pi aid doc ∨ aid ∈ L) :
    StructInv mi pi n0 (writeAttributes mi pi rm u doc L) ∧
      SharedInv mj pj aid primB acc0 (writeAttributes mi pi rm u doc L) ∧
      KInv mi pi aid (writeAttributes mi pi rm u doc L) := by
  induction L generalizing doc with
  | nil =>
    refine ⟨hstruct, hsh, ?_⟩
    rcases hk with hk | hk
    · exact hk
    · simp at hk
  | cons b L ih =>
    have hstruct1 := processAttribute_structInv mi pi rm u n0 b doc hstruct
    have hsh1 := processAttribute_sharedInv mi pi mj pj rm u n0 aid b primB acc0 doc hne href haid hstruct hsh
    have hk1 : KInv mi pi aid (processAttribute mi pi rm u doc b) ∨ aid ∈ L := by
      rcases hk with hk | hk
      · exact Or.inl (processAttribute_kinv mi pi rm u n0 aid b doc haid hstruct hk)
      · rcases List.mem_cons.mp hk with hb | hb
        · subst hb
          exact Or.inl (processAttribute_kinv_self mi pi rm u n0 aid acc0 doc haid hstruct hsh.1)
        · exact Or.inr hb
    exact ih _ hstruct1 hsh1 hk1

/-! ## Specification of the triangle path -/

theorem simplifyTriangles_snd (s : Simplifier) (opts : ResolvedOptions) (doc : Document)
    (mi pi : Nat) (prim : Primitive) (position : Accessor) (idxId : Nat) (srcIndices : Accessor) :
    (simplifyTriangles s opts doc mi pi prim position idxId srcIndices).2 = s := by
  simp only [simplifyTriangles]
  split <;> rfl

theorem simplifyTriangles_spec (s : Simplifier) (opts : ResolvedOptions) (doc : Document)
    (mi pi : Nat) (prim : Primitive) (position : Accessor) (idxId : Nat) (srcIndices : Accessor)
    (hwf : StoreWF doc) (hsome : (getPrim doc mi pi).isSome) (hidxlt : idxId < doc.nextId) :
    ∃ p' did,
      getPrim (simplifyTriangles s opts doc mi pi prim position idxId srcIndices).1 mi pi = some p' ∧
      p'.indices = some did ∧
      lookupAccessor (simplifyTriangles s opts doc mi pi prim position idxId srcIndices).1 did =
        some { srcIndices with array := widthArr s opts position srcIndices } := by
  have base : StructInv mi pi doc.nextId doc := ⟨hwf, Nat.le_refl _, hsome⟩
  have h1 := writeAttributes_structInv mi pi (triPipeline s opts position srcIndices).1
    (triPipeline s opts position srcIndices).2.1 doc.nextId (deepListAttributes prim) doc base
  obtain ⟨hwf1, hn1, hsome1⟩ := h1
  simp only [simplifyTriangles]
  set doc1 := writeAttributes mi pi (triPipeline s opts position srcIndices).1
    (triPipeline s opts position srcIndices).2.1 doc (deepListAttributes prim) with hd1
  obtain ⟨p0, hp0⟩ := Option.isSome_iff_exists.mp hsome1
  have hne : doc1.nextId ≠ idxId := by omega
  refine ⟨{ p0 with indices := some doc1.nextId }, doc1.nextId, ?_, rfl, ?_⟩
  · split
    · rw [getPrim_removeAccessor, getPrim_updatePrim_same, getPrim_addAccessor, hp0]
      rfl
    · rw [getPrim_updatePrim_same, getPrim_addAccessor, hp0]
      rfl
  · have hlkA : lookupAccessor (addAccessor doc1 { srcIndices with array := widthArr s opts position srcIndices }) doc1.nextId =
        some { srcIndices with array := widthArr s opts position srcIndices } :=
      lookup_addAccessor_self doc1 _ hwf1
    split
    · rw [lookup_removeAccessor, if_neg hne, lookup_updatePrim]
      exact hlkA
    · rw [lookup_updatePrim]
      exact hlkA

/-- Copy-on-write isolation through the triangle path: an accessor `aid`
also referenced by another primitive at `(mj, pj)` survives with unchanged
contents, the other primitive is untouched, and the processed primitive
ends up referencing only freshly built accessors in place of `aid`. -/
theorem simplifyTriangles_shared (s : Simplifier) (opts : ResolvedOptions) (doc : Document)
    (mi pi mj pj : Nat) (prim : Primitive) (position : Accessor) (idxId : Nat) (srcIndices : Accessor)
    (aid : Nat) (primB : Primitive) (acc0 : Accessor)
    (hwf : StoreWF doc) (hprim : getPrim doc mi pi = some prim)
    (hne : mi ≠ mj ∨ pi ≠ pj) (haid : aid < doc.nextId)
    (href : primRef primB aid = true)
    (hlk : lookupAccessor doc aid = some acc0) (hpb : getPrim doc mj pj = some primB) :
    lookupAccessor (simplifyTriangles s opts doc mi pi prim position idxId srcIndices).1 aid = some acc0 ∧
    getPrim (simplifyTriangles s opts doc mi pi prim position idxId srcIndices).1 mj pj = some primB ∧
    ∀ p', getPrim (simplifyTriangles s opts doc mi pi prim position idxId srcIndices).1 mi pi = some p' →
      primReferences p' aid = false := by
  have hsome : (getPrim doc mi pi).isSome := by rw [hprim]; rfl
  have base : StructInv mi pi doc.nextId doc := ⟨hwf, Nat.le_refl _, hsome⟩
  have hk0 : KInv mi pi aid doc ∨ aid ∈ deepListAttributes prim := by
    by_cases hocc : attrOccurs prim aid = true
    · exact Or.inr ((mem_deepListAttributes prim aid).mpr hocc)
    · refine Or.inl ?_
      intro p' hp'
      rw [hprim] at hp'
      obtain rfl := Option.some.inj hp'
      exact Bool.not_eq_true _ ▸ (Bool.eq_false_iff.mpr (fun hc => hocc hc))
  have main := writeAttributes_main mi pi mj pj (triPipeline s opts position srcIndices).1
    (triPipeline s opts position srcIndices).2.1 doc.nextId aid primB acc0
    (deepListAttributes prim) doc hne href haid base ⟨hlk, hpb⟩ hk0
  obtain ⟨⟨hwf1, hn1, hsome1⟩, ⟨hlk1, hpb1⟩, hk1⟩ := main
  simp only [simplifyTriangles]
  set doc1 := writeAttributes mi pi (triPipeline s opts position srcIndices).1
    (triPipeline s opts position srcIndices).2.1 doc (deepListAttributes prim) with hd1
  obtain ⟨p0, hp0⟩ := Option.isSome_iff_exists.mp hsome1
  have hanid : aid ≠ doc1.nextId := by omega
  set doc3 := updatePrim (addAccessor doc1 { srcIndices with array := widthArr s opts position srcIndices }) mi pi
    (fun p => { p with indices := some doc1.nextId }) with hd3
  have hlk3 : lookupAccessor doc3 aid = some acc0 := by
    rw [hd3, lookup_updatePrim, lookup_addAccessor_ne _ _ _ hanid]
    exact hlk1
  have hpb3 : getPrim doc3 mj pj = some primB := by
    rw [hd3, getPrim_updatePrim_other _ _ _ _ _ _ hne, getPrim_addAccessor]
    exact hpb1
  have hp3 : getPrim doc3 mi pi = some { p0 with indices := some doc1.nextId } := by
    rw [hd3, getPrim_updatePrim_same, getPrim_addAccessor, hp0]
    rfl
  have hrefs : ∀ p', getPrim doc3 mi pi = some p' → primReferences p' aid = false := by
    intro p' hp'
    rw [hp3] at hp'
    obtain rfl := Option.some.inj hp'
    rw [primReferences_eq]
    have h1 : (({ p0 with indices := some doc1.nextId } : Primitive).indices == some aid) = false := by
      simp [Ne.symm hanid]
    rw [h1, attrOccurs_setIndices, hk1 p0 hp0]
    rfl
  split
  · rename_i hcnt
    have hia : idxId ≠ aid := by
      intro hc
      subst hc
      exact parentCount_ne_one doc3 mj pj primB idxId hpb3 href hcnt
    refine ⟨?_, ?_, ?_⟩
    · rw [lookup_removeAccessor, if_neg (fun h => hia h.symm)]
      exact hlk3
    · rw [getPrim_removeAccessor]
      exact hpb3
    · intro p' hp'
      rw [getPrim_removeAccessor] at hp'
      exact hrefs p' hp'
  · exact ⟨hlk3, hpb3, hrefs⟩

/-- Reduction lemma: `simplifyPrimitive` on a non-points primitive with POSITION and indices
present reduces to the triangle path and returns `.ok` with the untouched
simplifier. -/
theorem simplifyPrimitive_eq_tri (s : Simplifier) (opts : ResolvedOptions) (doc : Document)
    (mi pi : Nat) (prim : Primitive) (posId : Nat) (position : Accessor) (idxId : Nat) (srcIndices : Accessor)
    (hprim : getPrim doc mi pi = some prim) (hmode : prim.mode ≠ .POINTS)
    (hpos : prim.getAttribute "POSITION" = some posId)
    (hpacc : lookupAccessor doc posId = some position)
    (hidx : prim.indices = some idxId)
    (hiacc : lookupAccessor doc idxId = some srcIndices) :
    simplifyPrimitive s opts doc mi pi =
      (Except.ok (simplifyTriangles s opts doc mi pi prim position idxId srcIndices).1, s) := by
  simp only [simplifyPrimitive, hprim, if_neg hmode, hpos, hidx, hpacc, hiacc]
  rw [simplifyTriangles_snd]

/-! ## Concrete instances for witnesses and counterexamples -/

def emptyDoc : Document := { accessors := [], meshes := [], nextId := 0 }

def idPipes : SubPipelines := { weld := id, prune := id, dedup := id }

def ropts0 : ResolvedOptions := { ratio := 0, error := 1 / 10000, lockBorder := false }

def ropts1 : ResolvedOptions := { ratio := 1, error := 1 / 10000, lockBorder := false }

/-- A quad: 4 vertices, 2 triangles. -/
def qPos : Accessor :=
  { normalized := false, elementSize := 3,
    array := { storage := .float, data := [0, 0, 0, 1, 0, 0, 1, 1, 0, 0, 1, 0] } }

def qIdx : Accessor :=
  { normalized := false, elementSize := 1,
    array := { storage := .uint, data := [0, 1, 2, 0, 2, 3] } }

def qPrim : Primitive :=
  { mode := .TRIANGLES, indices := some 1, attributes := [("POSITION", 0)], targets := [] }

def qDoc : Document :=
  { accessors := [(0, qPos), (1, qIdx)], meshes := [{ name := "m", primitives := [qPrim] }], nextId := 2 }

/-- A point primitive (already unindexed) with a quantized color. -/
def pPos : Accessor :=
  { normalized := false, elementSize := 3,
    array := { storage := .float, data := [0, 0, 0, 1, 0, 0, 2, 0, 0] } }

def pCol : Accessor :=
  { normalized := true, elementSize := 3,
    array := { storage := .ubyte, data := [255, 0, 0, 0, 255, 0, 0, 0, 255] } }

def pPrim : Primitive :=
  { mode := .POINTS, indices := none, attributes := [("POSITION", 0), ("COLOR_0", 1)], targets := [] }

def pDoc : Document :=
  { accessors := [(0, pPos), (1, pCol)], meshes := [{ name := "p", primitives := [pPrim] }], nextId := 2 }

/-- A primitive with an unsupported draw mode. -/
def oPrim : Primitive :=
  { mode := .OTHER, indices := some 1, attributes := [("POSITION", 0)], targets := [] }

def oDoc : Document :=
  { accessors := [(0, qPos), (1, qIdx)], meshes := [{ name := "o", primitives := [oPrim] }], nextId := 2 }

/-- A decimator without the point entry point. -/
def noPointsSimplifier : Simplifier := { refSimplifier with simplifyPoints := none }

/-! ## Claim C7 -/

/-- C7: if the simplifier capability is absent from the options, the
transform raises the fatal configuration error before any mutation — the
document is returned exactly as it was, no phase (weld included) has run
and no primitive was modified. -/
theorem claim_C7 (pipes : SubPipelines) (opts : SimplifyOptions) (context : Option (List String))
    (doc : Document) (h : opts.simplifier = none) :
    runSimplify pipes opts context doc =
      .notRun "simplify: simplifier dependency required - install meshoptimizer." doc := by
  simp only [runSimplify, h]

theorem claim_C7_witness :
    ({ simplifier := none, ratio := none, error := none, lockBorder := none } : SimplifyOptions).simplifier = none ∧
    runSimplify idPipes { simplifier := none, ratio := none, error := none, lockBorder := none } none qDoc =
      .notRun "simplify: simplifier dependency required - install meshoptimizer." qDoc :=
  ⟨rfl, claim_C7 idPipes { simplifier := none, ratio := none, error := none, lockBorder := none } none qDoc rfl⟩

/-! ## Claim C9 -/

/-- C9: the transform's phases run in the fixed order — decimator
readiness, weld pre-pass, per-primitive simplification, prune, then dedup —
and the dedup pass runs iff the shared pipeline context does not already
have a pass named "dedup" pending after this transform. -/
theorem claim_C9 (pipes : SubPipelines) (opts : SimplifyOptions) (context : Option (List String))
    (doc : Document) (s : Simplifier) (d : Document) (s' : Simplifier) (ws : List String) (ph : List Phase)
    (hs : opts.simplifier = some s)
    (hdone : runSimplify pipes opts context doc = .done d s' ws ph) :
    ph = [Phase.ready, Phase.weldPhase, Phase.simplifyPhase, Phase.prunePhase] ++
        (if isTransformPending context NAME "dedup" then [] else [Phase.dedupPhase]) ∧
    (Phase.dedupPhase ∈ ph ↔ isTransformPending context NAME "dedup" = false) := by
  simp only [runSimplify, hs] at hdone
  cases hrun : simplifyMeshes (resolveOptions opts) (pipes.weld doc) s with
  | error e => rw [hrun] at hdone; simp at hdone
  | ok r =>
    obtain ⟨d2, s2, w2⟩ := r
    rw [hrun] at hdone
    simp only at hdone
    by_cases hp : isTransformPending context NAME "dedup"
    · rw [if_pos hp] at hdone
      obtain ⟨-, -, -, hph⟩ := TransformOutcome.done.inj hdone
      subst hph
      rw [if_pos hp]
      simp [hp]
    · rw [if_neg hp] at hdone
      obtain ⟨-, -, -, hph⟩ := TransformOutcome.done.inj hdone
      subst hph
      rw [if_neg hp]
      refine ⟨rfl, ?_⟩
      simp only [Bool.not_eq_true] at hp
      simp [hp]

def c9opts : SimplifyOptions :=
  { simplifier := some refSimplifier, ratio := none, error := none, lockBorder := none }

def c9phases : List Phase :=
  [Phase.ready, Phase.weldPhase, Phase.simplifyPhase, Phase.prunePhase, Phase.dedupPhase]

theorem claim_C9_witness :
    c9opts.simplifier = some refSimplifier ∧
    runSimplify idPipes c9opts none emptyDoc = .done emptyDoc refSimplifier [] c9phases ∧
    (c9phases = [Phase.ready, Phase.weldPhase, Phase.simplifyPhase, Phase.prunePhase] ++
        (if isTransformPending none NAME "dedup" then [] else [Phase.dedupPhase]) ∧
      (Phase.dedupPhase ∈ c9phases ↔ isTransformPending none NAME "dedup" = false)) :=
  ⟨rfl, rfl, claim_C9 idPipes c9opts none emptyDoc refSimplifier emptyDoc refSimplifier [] c9phases rfl rfl⟩

/-! ## Claim C8 -/

/-- C8: a primitive whose draw mode is neither triangles nor points — and a
points primitive when the decimator lacks the point entry point — is left
entirely unmodified by the transform loop (the document, hence its indices,
attributes and mesh attachment, is returned unchanged) and a non-fatal
warning is surfaced. -/
theorem claim_C8 :
    (∀ (s : Simplifier) (opts : ResolvedOptions) (doc : Document) (mi pi : Nat) (prim : Primitive),
      getPrim doc mi pi = some prim → prim.mode = .OTHER →
      simplifyLoopBody s opts doc mi pi = .kept doc s (some unsupportedWarning)) ∧
    (∀ (s : Simplifier) (opts : ResolvedOptions) (doc : Document) (mi pi : Nat) (prim : Primitive),
      getPrim doc mi pi = some prim → prim.mode = .POINTS → s.simplifyPoints = none →
      simplifyLoopBody s opts doc mi pi = .kept doc s (some unsupportedWarning)) := by
  constructor
  · intro s opts doc mi pi prim hprim hmode
    simp [simplifyLoopBody, hprim, hmode]
  · intro s opts doc mi pi prim hprim hmode hpts
    simp [simplifyLoopBody, hprim, hmode, hpts]

theorem claim_C8_witness :
    simplifyLoopBody refSimplifier ropts0 oDoc 0 0 = .kept oDoc refSimplifier (some unsupportedWarning) ∧
    simplifyLoopBody noPointsSimplifier ropts0 pDoc 0 0 = .kept pDoc noPointsSimplifier (some unsupportedWarning) :=
  ⟨claim_C8.1 refSimplifier ropts0 oDoc 0 0 oPrim rfl rfl,
   claim_C8.2 noPointsSimplifier ropts0 pDoc 0 0 pPrim rfl rfl rfl⟩

/-! ## Claim C2 -/

/-- The toggle behaviour of the point path: the success path ends with the
toggle cleared, the decimator-throw path ends with the toggle still set
(a `TypeError` before the decimator call leaves it untouched or set,
depending on where it was raised). -/
theorem simplifyPoints_toggle_eq (s : Simplifier) (opts : ResolvedOptions) (doc0 : Document)
    (mi pi : Nat) (prim0 : Primitive) :
    (_simplifyPoints s opts doc0 mi pi prim0).2.useExperimentalFeatures =
      match (_simplifyPoints s opts doc0 mi pi prim0).1 with
      | .ok _ => false
      | .error (.thrown _) => true
      | .error .typeError => (_simplifyPoints s opts doc0 mi pi prim0).2.useExperimentalFeatures := by
  simp only [_simplifyPoints]
  repeat' split
  all_goals try rfl
  all_goals simp_all

/-- C2 (amended): during point-mode simplification the experimental
toggle is enabled before and disabled after the decimator call on the
success path; when the decimator's point entry raises, the toggle is left
enabled — it is not restored to its pre-call value. -/
theorem claim_C2 (s : Simplifier) (opts : ResolvedOptions) (doc : Document) (mi pi : Nat)
    (prim : Primitive) (hprim : getPrim doc mi pi = some prim) (hmode : prim.mode = .POINTS) :
    (∀ d, (simplifyPrimitive s opts doc mi pi).1 = .ok d →
      (simplifyPrimitive s opts doc mi pi).2.useExperimentalFeatures = false) ∧
    (∀ m, (simplifyPrimitive s opts doc mi pi).1 = .error (.thrown m) →
      (simplifyPrimitive s opts doc mi pi).2.useExperimentalFeatures = true) := by
  simp only [simplifyPrimitive, hprim, if_pos hmode]
  constructor
  · intro d hd
    rw [simplifyPoints_toggle_eq, hd]
  · intro m hm
    rw [simplifyPoints_toggle_eq, hm]

/-- C2 counterexample: with the toggle initially disabled, a throwing
point decimator leaves the toggle enabled after the failure — the toggle's
value after the error is not the value it had before the call, refuting
"restored immediately after on every exit path". -/
theorem claim_C2_counterexample :
    throwingSimplifier.useExperimentalFeatures = false ∧
    (simplifyPrimitive throwingSimplifier ropts0 pDoc 0 0).1 = .error (.thrown "boom") ∧
    (simplifyPrimitive throwingSimplifier ropts0 pDoc 0 0).2.useExperimentalFeatures = true :=
  ⟨rfl, rfl, rfl⟩

def c2succ : Document :=
  match (simplifyPrimitive refSimplifier ropts1 pDoc 0 0).1 with
  | .ok d => d
  | .error _ => pDoc

theorem claim_C2_witness :
    getPrim pDoc 0 0 = some pPrim ∧ pPrim.mode = .POINTS ∧
    (simplifyPrimitive refSimplifier ropts1 pDoc 0 0).1 = .ok c2succ ∧
    (simplifyPrimitive refSimplifier ropts1 pDoc 0 0).2.useExperimentalFeatures = false :=
  ⟨rfl, rfl, rfl, (claim_C2 refSimplifier ropts1 pDoc 0 0 pPrim rfl rfl).1 c2succ rfl⟩

/-! ## Claim C3 -/

/-- A point primitive whose COLOR_0 accessor is a normalized unsigned-byte
array while POSITION is floating point. -/
def c3Pos : Accessor :=
  { normalized := false, elementSize := 3,
    array := { storage := .float, data := [0, 0, 0, 1, 0, 0] } }

def c3Col : Accessor :=
  { normalized := true, elementSize := 3,
    array := { storage := .ubyte, data := [255, 0, 0, 0, 255, 0] } }

/-- C3: the color array handed to the point decimator is dequantized with
the POSITION accessor's component type and normalized flag, not the color
accessor's own — on this input the decimator receives the raw byte values
`[255, ...]` instead of the normalized `[1, ...]` the claim requires.  (The
spec's rule — dequantize each attribute with its own component type and
normalized flag — is the evident intent; source line 211 passes
`position.getComponentType(), position.getNormalized()` for the color
array.) -/
theorem claim_C3 :
    (pointsDecimatorInputs c3Pos (some c3Col)).2.1 =
      some (dequantizeAttributeArray c3Col.array.data c3Pos.getComponentType c3Pos.normalized) ∧
    (pointsDecimatorInputs c3Pos (some c3Col)).2.1 = some [255, 0, 0, 0, 255, 0] ∧
    (pointsDecimatorInputs c3Pos (some c3Col)).2.1 ≠
      some (dequantizeAttributeArray c3Col.array.data c3Col.getComponentType c3Col.normalized) := by
  have hval : dequantizeAttributeArray c3Col.array.data c3Col.getComponentType c3Col.normalized =
      [1, 0, 0, 0, 1, 0] := by
    show dequantizeAttributeArray [255, 0, 0, 0, 255, 0] ComponentType.ubyte true = [1, 0, 0, 0, 1, 0]
    simp only [dequantizeAttributeArray, maxComponent, if_true, List.map_cons, List.map_nil]
    norm_num
  refine ⟨rfl, rfl, ?_⟩
  rw [hval]
  show some [(255 : Rat), 0, 0, 0, 255, 0] ≠ some [1, 0, 0, 0, 1, 0]
  intro h
  have h2 := Option.some.inj h
  have h3 : (255 : Rat) = 1 := Option.some.inj (congrArg List.head? h2)
  norm_num at h3

/-! ## Claim C10 -/

def c10Prim : Primitive :=
  { mode := .TRIANGLES, indices := none, attributes := [("POSITION", 0)], targets := [] }

def c10Doc : Document :=
  { accessors := [(0, qPos)], meshes := [{ name := "m", primitives := [c10Prim] }], nextId := 1 }

/-- C10: on a non-points primitive `simplifyPrimitive` force-dereferences
the POSITION attribute and the index accessor: whenever both are present
the operation is well-defined (it returns `.ok` with the triangle-path
result), and on a concrete TRIANGLES primitive with no indices it crashes
with a `TypeError` instead of returning an error value. -/
theorem claim_C10 :
    (∀ (s : Simplifier) (opts : ResolvedOptions) (doc : Document) (mi pi : Nat) (prim : Primitive)
        (posId : Nat) (position : Accessor) (idxId : Nat) (srcIndices : Accessor),
      getPrim doc mi pi = some prim → prim.mode ≠ .POINTS →
      prim.getAttribute "POSITION" = some posId → lookupAccessor doc posId = some position →
      prim.indices = some idxId → lookupAccessor doc idxId = some srcIndices →
      simplifyPrimitive s opts doc mi pi =
        (Except.ok (simplifyTriangles s opts doc mi pi prim position idxId srcIndices).1, s)) ∧
    simplifyPrimitive refSimplifier ropts0 c10Doc 0 0 = (.error .typeError, refSimplifier) := by
  constructor
  · intro s opts doc mi pi prim posId position idxId srcIndices hprim hmode hpos hpacc hidx hiacc
    exact simplifyPrimitive_eq_tri s opts doc mi pi prim posId position idxId srcIndices
      hprim hmode hpos hpacc hidx hiacc
  · rfl

theorem claim_C10_witness :
    simplifyPrimitive refSimplifier ropts1 qDoc 0 0 =
      (Except.ok (simplifyTriangles refSimplifier ropts1 qDoc 0 0 qPrim qPos 1 qIdx).1, refSimplifier) :=
  claim_C10.1 refSimplifier ropts1 qDoc 0 0 qPrim 0 qPos 1 qIdx rfl (by decide) rfl rfl rfl rfl

/-! ## Claim C4 -/

theorem widthArr_length (s : Simplifier) (opts : ResolvedOptions) (position srcIndices : Accessor) :
    (widthArr s opts position srcIndices).data.length = (triPipeline s opts position srcIndices).2.2.length := by
  unfold widthArr
  split <;> exact List.length_map _ _

theorem triPipeline_count (s : Simplifier) (hc : SimplifierContract s) (opts : ResolvedOptions)
    (position srcIndices : Accessor) :
    3 ∣ (triPipeline s opts position srcIndices).2.2.length ∧
    (triPipeline s opts position srcIndices).2.2.length ≤ (natsOfArr srcIndices.array).length := by
  simp only [triPipeline]
  rw [hc.compact_len]
  exact ⟨hc.simplify_dvd _ _ _ _ _ _, hc.simplify_le _ _ _ _ _ _⟩

theorem targetIndexCount_le (r : Rat) (n : Nat) (hr1 : r ≤ 1) : targetIndexCount r n ≤ n := by
  unfold targetIndexCount
  rcases le_or_lt ((r * n / 3).floor) 0 with hf | hf
  · rw [Int.toNat_of_nonpos hf]
    omega
  · have h1 : ((r * n / 3).floor : Rat) ≤ r * n / 3 := Int.floor_le _
    have hn : (0 : Rat) ≤ (n : Rat) := Nat.cast_nonneg n
    have h2 : r * (n : Rat) ≤ (n : Rat) := by
      calc r * n ≤ 1 * n := mul_le_mul_of_nonneg_right hr1 hn
        _ = n := one_mul _
    have h3 : r * (n : Rat) / 3 ≤ (n : Rat) / 3 :=
      (div_le_div_iff_of_pos_right (by norm_num : (0 : Rat) < 3)).mpr h2
    have h4 : ((r * n / 3).floor : Rat) * 3 ≤ (n : Rat) := by
      have h5 := mul_le_mul_of_nonneg_right (le_trans h1 h3) (by norm_num : (0 : Rat) ≤ 3)
      calc ((r * n / 3).floor : Rat) * 3 ≤ (n : Rat) / 3 * 3 := h5
        _ = n := div_mul_cancel₀ _ (by norm_num)
    have h6 : (r * n / 3).floor * 3 ≤ (n : Int) := by exact_mod_cast h4
    omega

/-- C4: the target index count handed to the decimator is
`floor(ratio * srcIndexCount / 3) * 3` — a multiple of 3 never exceeding
the original index count — and (under the decimator's contract) the
resulting index count is a multiple of 3 and at most the original. -/
theorem claim_C4 (s : Simplifier) (opts : ResolvedOptions) (doc : Document) (mi pi : Nat)
    (prim : Primitive) (posId : Nat) (position : Accessor) (idxId : Nat) (srcIndices : Accessor)
    (hc : SimplifierContract s) (hwf : StoreWF doc)
    (hprim : getPrim doc mi pi = some prim) (hmode : prim.mode = .TRIANGLES)
    (hpos : prim.getAttribute "POSITION" = some posId) (hpacc : lookupAccessor doc posId = some position)
    (hidx : prim.indices = some idxId) (hiacc : lookupAccessor doc idxId = some srcIndices)
    (hesz : srcIndices.elementSize = 1) (hr1 : opts.ratio ≤ 1) :
    targetIndexCount opts.ratio srcIndices.getCount =
        ((opts.ratio * srcIndices.getCount / 3).floor).toNat * 3 ∧
    3 ∣ targetIndexCount opts.ratio srcIndices.getCount ∧
    targetIndexCount opts.ratio srcIndices.getCount ≤ srcIndices.getCount ∧
    simplifyPrimitive s opts doc mi pi =
      (Except.ok (simplifyTriangles s opts doc mi pi prim position idxId srcIndices).1, s) ∧
    (primIndicesCount (simplifyTriangles s opts doc mi pi prim position idxId srcIndices).1 mi pi).isSome ∧
    (∀ n, primIndicesCount (simplifyTriangles s opts doc mi pi prim position idxId srcIndices).1 mi pi = some n →
      3 ∣ n ∧ n ≤ srcIndices.getCount) := by
  have hmodene : prim.mode ≠ .POINTS := by rw [hmode]; decide
  have heq := simplifyPrimitive_eq_tri s opts doc mi pi prim posId position idxId srcIndices
    hprim hmodene hpos hpacc hidx hiacc
  have hsome : (getPrim doc mi pi).isSome := by rw [hprim]; rfl
  have hidxlt : idxId < doc.nextId := lookup_lt_nextId doc idxId srcIndices hwf hiacc
  obtain ⟨p', did, hp', hdid, hlk⟩ :=
    simplifyTriangles_spec s opts doc mi pi prim position idxId srcIndices hwf hsome hidxlt
  have hcnt : primIndicesCount (simplifyTriangles s opts doc mi pi prim position idxId srcIndices).1 mi pi =
      some ({ srcIndices with array := widthArr s opts position srcIndices } : Accessor).getCount := by
    simp [primIndicesCount, hp', hdid, hlk]
  have hN : (natsOfArr srcIndices.array).length = srcIndices.getCount := by
    simp only [natsOfArr, List.length_map, Accessor.getCount, hesz, Nat.div_one]
  have hlen : ({ srcIndices with array := widthArr s opts position srcIndices } : Accessor).getCount =
      (triPipeline s opts position srcIndices).2.2.length := by
    simp only [Accessor.getCount, hesz, Nat.div_one]
    exact widthArr_length s opts position srcIndices
  obtain ⟨hdvd, hle⟩ := triPipeline_count s hc opts position srcIndices
  refine ⟨rfl, by unfold targetIndexCount; omega, targetIndexCount_le _ _ hr1, heq, ?_, ?_⟩
  · rw [hcnt]
    rfl
  · intro n hn
    rw [hcnt] at hn
    obtain rfl := Option.some.inj hn
    rw [hlen]
    exact ⟨hdvd, le_trans hle (le_of_eq hN)⟩

def ropts05 : ResolvedOptions := { ratio := 1 / 2, error := 1 / 10000, lockBorder := false }

def c4D : Document := (simplifyTriangles refSimplifier ropts05 qDoc 0 0 qPrim qPos 1 qIdx).1

theorem claim_C4_witness :
    targetIndexCount ropts05.ratio qIdx.getCount ≤ qIdx.getCount ∧
    3 ∣ targetIndexCount ropts05.ratio qIdx.getCount ∧
    simplifyPrimitive refSimplifier ropts05 qDoc 0 0 = (Except.ok c4D, refSimplifier) ∧
    (primIndicesCount c4D 0 0).isSome = true := by
  have h := claim_C4 refSimplifier ropts05 qDoc 0 0 qPrim 0 qPos 1 qIdx refSimplifier_contract
    (by decide) rfl rfl rfl rfl rfl rfl rfl (by norm_num [ropts05])
  exact ⟨h.2.2.1, h.2.1, h.2.2.2.1, h.2.2.2.2.1⟩

/-! ## Claim C1 -/

theorem triPipeline_unique_le (s : Simplifier) (hc : SimplifierContract s) (opts : ResolvedOptions)
    (position srcIndices : Accessor) (B : Nat)
    (hvals : ∀ v ∈ natsOfArr srcIndices.array, v < B) :
    (triPipeline s opts position srcIndices).2.1 ≤ B := by
  simp only [triPipeline]
  apply hc.compact_le
  intro v hv
  exact hvals v (hc.simplify_mem _ _ _ _ _ _ v hv)

theorem triPipeline_lt (s : Simplifier) (hc : SimplifierContract s) (opts : ResolvedOptions)
    (position srcIndices : Accessor) :
    ∀ v ∈ (triPipeline s opts position srcIndices).2.2, v < (triPipeline s opts position srcIndices).2.1 := by
  simp only [triPipeline]
  exact hc.compact_lt _

theorem map_congrH (l : List α) (f g : α → β) (h : ∀ a ∈ l, f a = g a) :
    List.map f l = List.map g l := by
  induction l with
  | nil => rfl
  | cons a as ih =>
    simp only [List.map_cons]
    rw [h a (List.mem_cons_self a as), ih (fun b hb => h b (List.mem_cons_of_mem a hb))]

/-- C1 (amended): the compacted index buffer is stored at the narrower
`Uint16` width iff the SOURCE vertex count (`position.getCount()` before
simplification, not the post-compaction unique count) is at most 65534,
and the widest width otherwise; under either width the stored values are
exactly the compacted index values. -/
theorem claim_C1 (s : Simplifier) (opts : ResolvedOptions) (doc : Document) (mi pi : Nat)
    (prim : Primitive) (posId : Nat) (position : Accessor) (idxId : Nat) (srcIndices : Accessor)
    (hc : SimplifierContract s) (hwf : StoreWF doc)
    (hprim : getPrim doc mi pi = some prim) (hmode : prim.mode = .TRIANGLES)
    (hpos : prim.getAttribute "POSITION" = some posId) (hpacc : lookupAccessor doc posId = some position)
    (hidx : prim.indices = some idxId) (hiacc : lookupAccessor doc idxId = some srcIndices)
    (hvals : ∀ v ∈ natsOfArr srcIndices.array, v < position.getCount) :
    simplifyPrimitive s opts doc mi pi =
      (Except.ok (simplifyTriangles s opts doc mi pi prim position idxId srcIndices).1, s) ∧
    primIndicesArr (simplifyTriangles s opts doc mi pi prim position idxId srcIndices).1 mi pi =
      some (widthArr s opts position srcIndices) ∧
    ((widthArr s opts position srcIndices).storage = ComponentType.ushort ↔ position.getCount ≤ 65534) ∧
    (widthArr s opts position srcIndices).data =
      List.map (fun v : Nat => (v : Rat)) (triPipeline s opts position srcIndices).2.2 := by
  have hmodene : prim.mode ≠ .POINTS := by rw [hmode]; decide
  have heq := simplifyPrimitive_eq_tri s opts doc mi pi prim posId position idxId srcIndices
    hprim hmodene hpos hpacc hidx hiacc
  have hsome : (getPrim doc mi pi).isSome := by rw [hprim]; rfl
  have hidxlt : idxId < doc.nextId := lookup_lt_nextId doc idxId srcIndices hwf hiacc
  obtain ⟨p', did, hp', hdid, hlk⟩ :=
    simplifyTriangles_spec s opts doc mi pi prim position idxId srcIndices hwf hsome hidxlt
  refine ⟨heq, ?_, ?_, ?_⟩
  · simp [primIndicesArr, hp', hdid, hlk]
  · unfold widthArr
    by_cases hvc : position.getCount ≤ 65534
    · rw [if_pos hvc]
      simp [hvc]
    · rw [if_neg hvc]
      simp only []
      constructor
      · intro hcontr
        exact absurd hcontr (by decide)
      · intro hcontr
        exact absurd hcontr hvc
  · unfold widthArr
    by_cases hvc : position.getCount ≤ 65534
    · rw [if_pos hvc]
      simp only []
      refine map_congrH _ _ _ ?_
      intro v hv
      have h1 : v < (triPipeline s opts position srcIndices).2.1 :=
        triPipeline_lt s hc opts position srcIndices v hv
      have h2 : (triPipeline s opts position srcIndices).2.1 ≤ position.getCount :=
        triPipeline_unique_le s hc opts position srcIndices _ hvals
      have h3 : v % 2 ^ 16 = v := Nat.mod_eq_of_lt (by omega)
      rw [h3]
    · rw [if_neg hvc]

theorem claim_C1_witness :
    simplifyPrimitive refSimplifier ropts1 qDoc 0 0 =
      (Except.ok (simplifyTriangles refSimplifier ropts1 qDoc 0 0 qPrim qPos 1 qIdx).1, refSimplifier) ∧
    primIndicesArr (simplifyTriangles refSimplifier ropts1 qDoc 0 0 qPrim qPos 1 qIdx).1 0 0 =
      some (widthArr refSimplifier ropts1 qPos qIdx) ∧
    ((widthArr refSimplifier ropts1 qPos qIdx).storage = ComponentType.ushort ↔ qPos.getCount ≤ 65534) ∧
    (widthArr refSimplifier ropts1 qPos qIdx).data =
      List.map (fun v : Nat => (v : Rat)) (triPipeline refSimplifier ropts1 qPos qIdx).2.2 :=
  claim_C1 refSimplifier ropts1 qDoc 0 0 qPrim 0 qPos 1 qIdx refSimplifier_contract
    (by decide) rfl rfl rfl rfl rfl rfl (by decide)

/-- The counterexample document: a triangle primitive over 65535 source
vertices of which only 3 are referenced. -/
def c1opts : ResolvedOptions := { ratio := 1, error := 1 / 10000, lockBorder := false }

def c1data : List Rat := List.replicate 196605 0

theorem c1data_length : c1data.length = 196605 := by
  unfold c1data
  exact List.length_replicate 196605 0

def c1Pos : Accessor :=
  { normalized := false, elementSize := 3, array := { storage := .float, data := c1data } }

def c1Idx : Accessor :=
  { normalized := false, elementSize := 1,
    array := { storage := .uint, data := [0, 1, 2] } }

def c1Prim : Primitive :=
  { mode := .TRIANGLES, indices := some 1, attributes := [("POSITION", 0)], targets := [] }

def c1Doc : Document :=
  { accessors := [(0, c1Pos), (1, c1Idx)], meshes := [{ name := "m", primitives := [c1Prim] }], nextId := 2 }

def c1D : Document := (simplifyTriangles refSimplifier c1opts c1Doc 0 0 c1Prim c1Pos 1 c1Idx).1

/-- C1 counterexample: on this primitive the post-compaction unique vertex
count is 3 ≤ 65534, yet the compacted index buffer is stored at the widest
width (`Uint32`), because the source checks the source vertex count
(65535), not the resulting one — refuting "narrower width iff resulting
vertex count ≤ 65534". -/
theorem claim_C1_counterexample :
    (triPipeline refSimplifier c1opts c1Pos c1Idx).2.1 = 3 ∧
    (3 : Nat) ≤ 65534 ∧
    simplifyPrimitive refSimplifier c1opts c1Doc 0 0 = (Except.ok c1D, refSimplifier) ∧
    primIndicesStorage c1D 0 0 = some ComponentType.uint ∧
    ComponentType.uint ≠ ComponentType.ushort := by
  have htc : targetIndexCount c1opts.ratio c1Idx.getCount = 3 := by
    show (((1 : Rat) * ((3 : Nat) : Rat) / 3).floor).toNat * 3 = 3
    have h : ((1 : Rat) * ((3 : Nat) : Rat) / 3) = 1 := by norm_num
    rw [h]
    rfl
  have hgc : c1Pos.getCount = 65535 := by
    have h1 : c1Pos.array.data.length = 196605 := c1data_length
    have h2 : c1Pos.elementSize = 3 := rfl
    rw [Accessor.getCount, h1, h2]
  have hpipe1 : (triPipeline refSimplifier c1opts c1Pos c1Idx).2.1 = 3 := by
    simp only [triPipeline, htc]
    rfl
  obtain ⟨p', did, hp', hdid, hlk⟩ := simplifyTriangles_spec refSimplifier c1opts c1Doc 0 0
    c1Prim c1Pos 1 c1Idx (by decide) (by decide) (by decide)
  have hn65 : ¬(c1Pos.getCount ≤ 65534) := by rw [hgc]; omega
  have hwidth : (widthArr refSimplifier c1opts c1Pos c1Idx).storage = ComponentType.uint := by
    rw [widthArr, if_neg hn65]
  have hstor : primIndicesStorage c1D 0 0 = some (widthArr refSimplifier c1opts c1Pos c1Idx).storage := by
    show (primIndicesArr c1D 0 0).map TypedArr.storage = some (widthArr refSimplifier c1opts c1Pos c1Idx).storage
    simp only [c1D, primIndicesArr]
    rw [hp', Option.some_bind, hdid, Option.some_bind, hlk, Option.map_some', Option.map_some']
  refine ⟨hpipe1, by omega, ?_, ?_, by decide⟩
  · exact simplifyPrimitive_eq_tri refSimplifier c1opts c1Doc 0 0 c1Prim 0 c1Pos 1 c1Idx
      rfl (by decide) rfl rfl rfl rfl
  · rw [hstor, hwidth]

/-! ## Claim C5 -/

/-- C5: copy-on-write isolation.  For an accessor `aid` also referenced by
another primitive `B`, simplifying primitive `A` (i) succeeds, (ii) leaves
`aid` live in the store with its exact original contents, (iii) leaves `B`
untouched, and (iv) leaves `A` referencing only other (freshly built)
accessors — the shared accessor is neither mutated nor destroyed, and a
source accessor is disposed only when no other primitive references it at
the moment of replacement. -/
theorem claim_C5 (s : Simplifier) (opts : ResolvedOptions) (doc : Document) (mi pi mj pj : Nat)
    (prim : Primitive) (posId : Nat) (position : Accessor) (idxId : Nat) (srcIndices : Accessor)
    (aid : Nat) (primB : Primitive) (acc0 : Accessor)
    (hwf : StoreWF doc)
    (hprim : getPrim doc mi pi = some prim) (hmode : prim.mode = .TRIANGLES)
    (hpos : prim.getAttribute "POSITION" = some posId) (hpacc : lookupAccessor doc posId = some position)
    (hidx : prim.indices = some idxId) (hiacc : lookupAccessor doc idxId = some srcIndices)
    (hne : mi ≠ mj ∨ pi ≠ pj) (hpb : getPrim doc mj pj = some primB)
    (href : primRef primB aid = true) (hlk : lookupAccessor doc aid = some acc0) :
    simplifyPrimitive s opts doc mi pi =
      (Except.ok (simplifyTriangles s opts doc mi pi prim position idxId srcIndices).1, s) ∧
    lookupAccessor (simplifyTriangles s opts doc mi pi prim position idxId srcIndices).1 aid = some acc0 ∧
    getPrim (simplifyTriangles s opts doc mi pi prim position idxId srcIndices).1 mj pj = some primB ∧
    ∀ p', getPrim (simplifyTriangles s opts doc mi pi prim position idxId srcIndices).1 mi pi = some p' →
      primReferences p' aid = false := by
  have hmodene : prim.mode ≠ .POINTS := by rw [hmode]; decide
  have haid : aid < doc.nextId := lookup_lt_nextId doc aid acc0 hwf hlk
  have h := simplifyTriangles_shared s opts doc mi pi mj pj prim position idxId srcIndices
    aid primB acc0 hwf hprim hne haid href hlk hpb
  exact ⟨simplifyPrimitive_eq_tri s opts doc mi pi prim posId position idxId srcIndices
    hprim hmodene hpos hpacc hidx hiacc, h.1, h.2.1, h.2.2⟩

def sIdxB : Accessor :=
  { normalized := false, elementSize := 1, array := { storage := .uint, data := [0, 1, 2] } }

def sPrimA : Primitive :=
  { mode := .TRIANGLES, indices := some 1, attributes := [("POSITION", 0)], targets := [] }

def sPrimB : Primitive :=
  { mode := .TRIANGLES, indices := some 2, attributes := [("POSITION", 0)], targets := [] }

/-- Two triangle primitives sharing the POSITION accessor (id 0). -/
def sDoc : Document :=
  { accessors := [(0, qPos), (1, qIdx), (2, sIdxB)],
    meshes := [{ name := "m", primitives := [sPrimA, sPrimB] }], nextId := 3 }

def c5D : Document := (simplifyTriangles refSimplifier ropts1 sDoc 0 0 sPrimA qPos 1 qIdx).1

theorem claim_C5_witness :
    simplifyPrimitive refSimplifier ropts1 sDoc 0 0 = (Except.ok c5D, refSimplifier) ∧
    lookupAccessor c5D 0 = some qPos ∧
    getPrim c5D 0 1 = some sPrimB := by
  have h := claim_C5 refSimplifier ropts1 sDoc 0 0 0 1 sPrimA 0 qPos 1 qIdx 0 sPrimB qPos
    (by decide) rfl rfl rfl rfl rfl rfl (Or.inr (by decide)) rfl (by decide) rfl
  exact ⟨h.1, h.2.1, h.2.2.1⟩

/-! ## Claim C6 -/

/-- C6: degenerate results are removals, not errors.  (i) A triangle
primitive whose post-simplification index count is 0 is disposed from its
mesh by the loop body, with no error raised; (ii) likewise a supported
point primitive whose post-simplification POSITION count is 0; (iii) a mesh
whose primitive list is empty after its primitives were processed is itself
disposed. -/
theorem claim_C6 :
    (∀ (s : Simplifier) (opts : ResolvedOptions) (doc : Document) (mi pi : Nat) (prim : Primitive)
        (doc' : Document) (s' : Simplifier),
      getPrim doc mi pi = some prim → prim.mode = .TRIANGLES →
      simplifyPrimitive s opts doc mi pi = (Except.ok doc', s') →
      primIndicesCount doc' mi pi = some 0 →
      simplifyLoopBody s opts doc mi pi = .removed (removePrim doc' mi pi) s') ∧
    (∀ (s : Simplifier) (opts : ResolvedOptions) (doc : Document) (mi pi : Nat) (prim : Primitive)
        (doc' : Document) (s' : Simplifier),
      getPrim doc mi pi = some prim → prim.mode = .POINTS → s.simplifyPoints.isSome = true →
      simplifyPrimitive s opts doc mi pi = (Except.ok doc', s') →
      primPositionCount doc' mi pi = some 0 →
      simplifyLoopBody s opts doc mi pi = .removed (removePrim doc' mi pi) s') ∧
    (∀ (opts : ResolvedOptions) (mi : Nat) (doc : Document) (s : Simplifier) (ws : List String)
        (m : Mesh) (doc' : Document) (s' : Simplifier) (ws' : List String) (m' : Mesh),
      getMesh doc mi = some m →
      processPrims opts mi m.primitives.length 0 doc s ws = .ok (doc', s', ws') →
      getMesh doc' mi = some m' → m'.primitives.length = 0 →
      simplifyMeshStep opts mi doc s ws = .ok (removeMesh doc' mi, s', ws', false)) := by
  refine ⟨?_, ?_, ?_⟩
  · intro s opts doc mi pi prim doc' s' hprim hmode hsimp hcount
    simp [simplifyLoopBody, hprim, hmode, hsimp, hcount]
  · intro s opts doc mi pi prim doc' s' hprim hmode hpts hsimp hcount
    simp [simplifyLoopBody, hprim, hmode, hpts, hsimp, hcount]
  · intro opts mi doc s ws m doc' s' ws' m' hmesh hrun hm' hlen
    simp [simplifyMeshStep, hmesh, hrun, hm', hlen]

/-- A decimator that reduces every triangle mesh to nothing (used to
exercise the degenerate branches without involving the target-ratio
arithmetic). -/
def emptySimplifier : Simplifier :=
  { refSimplifier with simplify := fun _ _ _ _ _ _ => ([], 0) }

def c6A : Document :=
  match (simplifyPrimitive emptySimplifier ropts0 qDoc 0 0).1 with
  | .ok d => d
  | .error _ => qDoc

/-- A decimator that reduces every point cloud to nothing. -/
def emptyPointsSimplifier : Simplifier :=
  { refSimplifier with simplifyPoints := some (fun _ _ _ _ _ _ => .ok []) }

def c6B : Document :=
  match (simplifyPrimitive emptyPointsSimplifier ropts0 pDoc 0 0).1 with
  | .ok d => d
  | .error _ => pDoc

def c6m : Mesh := { name := "m", primitives := [qPrim] }

def c6C : Document × Simplifier × List String :=
  match processPrims ropts0 0 c6m.primitives.length 0 qDoc emptySimplifier [] with
  | .ok r => r
  | .error _ => (qDoc, emptySimplifier, [])

def c6m2 : Mesh :=
  match getMesh c6C.1 0 with
  | some m => m
  | none => c6m

theorem claim_C6_witness :
    simplifyLoopBody emptySimplifier ropts0 qDoc 0 0 = .removed (removePrim c6A 0 0) emptySimplifier ∧
    simplifyLoopBody emptyPointsSimplifier ropts0 pDoc 0 0 =
      .removed (removePrim c6B 0 0) { emptyPointsSimplifier with useExperimentalFeatures := false } ∧
    simplifyMeshStep ropts0 0 qDoc emptySimplifier [] = .ok (removeMesh c6C.1 0, c6C.2.1, c6C.2.2, false) :=
  ⟨claim_C6.1 emptySimplifier ropts0 qDoc 0 0 qPrim c6A emptySimplifier rfl rfl rfl rfl,
   claim_C6.2.1 emptyPointsSimplifier ropts0 pDoc 0 0 pPrim c6B
     { emptyPointsSimplifier with useExperimentalFeatures := false } rfl rfl rfl rfl rfl,
   claim_C6.2.2 ropts0 0 qDoc emptySimplifier [] c6m c6C.1 c6C.2.1 c6C.2.2 c6m2 rfl rfl rfl rfl⟩

end GltfSimplify
